import Mathlib

/-!
Verification of the keybind-optimizer core engine.

This file shallowly embeds the TypeScript sources of the optimizer
(geometry, key scorer, greedy allocator, friction cost function, and the
simulated-annealing optimizer) as executable Lean definitions and proves
or refutes the specified properties about them.

Modelling conventions:
* JavaScript numbers are modelled as exact rationals (`ℚ`).  The seeded
  generator's update `(seed * 1103515245 + 12345) & 0x7fffffff` is
  modelled with the IEEE-754 double rounding the source actually performs:
  `fl53` rounds an integer to the nearest 53-bit-significand double (ties
  to even), a product past the double range behaves like `Infinity` under
  `ToInt32` (value 0), and the mask takes the low 31 bits (`% 2^31`).
* `Math.sqrt` is transcendental, so the geometry is parameterised by an
  abstract square-root function `sq : ℚ → ℚ`; theorems assume only the
  order properties of the real square root that they actually use.
* `Math.exp` appears only inside the simulated-annealing acceptance test
  `rng.next() < Math.exp(-delta/temp)`; the whole Boolean test is
  abstracted as a parameter `accept : ℚ → ℚ → ℚ → Bool` (uniform value,
  delta, temperature).  No claim here depends on its value.
* A JavaScript `Map` is modelled as an association list with
  insert-or-update (`mapSet`) semantics, which reproduces both `get` and
  the insertion-order iteration of `Map`.
* JavaScript string truthiness matters in a few places (`if (lockedKey)`,
  `if (keyA && keyB)`, `if (!otherKey)`); the model tests emptiness of the
  string explicitly in those places.
* Optional fields that the code only reads through `?.`-guards that treat
  `undefined` and an empty collection identically (`concurrentWith`,
  `exclusiveKeys`, `keyPenalties`) are modelled as plain lists.
* The unbounded `while (temp > minTemp)` loop of the SA optimizer can
  diverge for degenerate cooling parameters, so it is modelled with an
  explicit fuel parameter; all statements hold for every fuel.
-/

-- ═══════════════════════════════════════════════════════════════════════
-- Generic helpers: association lists, JS-style stable sort
-- ═══════════════════════════════════════════════════════════════════════

/-- Lookup in an association list (the `Map.get` / `Record[k]` of the source). -/
def alookup {α β : Type} [DecidableEq α] (k : α) : List (α × β) → Option β
  | [] => none
  | (k2, v) :: rest => if k = k2 then some v else alookup k rest

/-- Insert-or-update, the `Map.set` of the source: updates the entry in place
when the key is present (JS `Map` keeps the original insertion position),
otherwise appends. -/
def mapSet {α β : Type} [DecidableEq α] (m : List (α × β)) (k : α) (v : β) :
    List (α × β) :=
  if m.any (fun p => p.1 = k) then m.map (fun p => if p.1 = k then (k, v) else p)
  else m ++ [(k, v)]

/-- Builds a JS `Map` from a list of entries (`new Map(pairs)`): later entries
with the same key overwrite earlier ones in place. -/
def mapFromList {α β : Type} [DecidableEq α] (l : List (α × β)) : List (α × β) :=
  l.foldl (fun m p => mapSet m p.1 p.2) []

/-- Keys of an association list. -/
def keysOf {α β : Type} (m : List (α × β)) : List α := m.map Prod.fst

/-- Values of an association list. -/
def valsOf {α β : Type} (m : List (α × β)) : List β := m.map Prod.snd

/-- Stable insertion used by `stableSort`: `x` is placed before the first
element `y` with `le x y`. -/
def insertSorted {α : Type} (le : α → α → Bool) (x : α) : List α → List α
  | [] => [x]
  | y :: ys => if le x y then x :: y :: ys else y :: insertSorted le x ys

/-- Stable sort modelling JavaScript `Array.prototype.sort` (stable per the
ECMAScript spec) for a total-preorder comparator: `le a b` meaning
"`comparator(a, b) <= 0`, `a` may come before `b`".  A stable sort's output
is uniquely determined by the comparator, so insertion sort is extensionally
the JS sort. -/
def stableSort {α : Type} (le : α → α → Bool) : List α → List α
  | [] => []
  | x :: xs => insertSorted le x (stableSort le xs)

/-- Maximum of a list of rationals (`Math.max(...)`), 0 for the empty list
(never taken on the empty list by the source). -/
def listMaxQ : List ℚ → ℚ
  | [] => 0
  | x :: xs => xs.foldl max x

/-- Minimum of a list of rationals (`Math.min(...)`). -/
def listMinQ : List ℚ → ℚ
  | [] => 0
  | x :: xs => xs.foldl min x

/-- `name.toLowerCase().includes(pat)` of JavaScript, on ASCII action names. -/
def strIncludes (s pat : String) : Bool :=
  (s.toList.map Char.toLower).tails.any
    (fun t => (pat.toList.map Char.toLower).isPrefixOf t)

-- ═══════════════════════════════════════════════════════════════════════
-- Data model (src/lib/logic/types.ts)
-- ═══════════════════════════════════════════════════════════════════════

/-- The ten-finger enumeration of `types.ts`. -/
inductive Finger : Type
  | LeftPinky | LeftRing | LeftMiddle | LeftIndex | LeftThumb
  | RightThumb | RightIndex | RightMiddle | RightRing | RightPinky
deriving DecidableEq

/-- Physical key definition with position in 0.25u coordinate space. -/
structure KeyDef : Type where
  code : String
  x : ℚ
  y : ℚ
  width : ℚ
  height : Option ℚ := none
deriving DecidableEq

/-- Configuration for a single finger: resting key, reach, and ergonomic
constraints.  `exclusiveKeys = []` and `keyPenalties = []` model the absent
optional fields. -/
structure FingerConfig : Type where
  restingKey : String
  reach : ℚ
  exclusiveKeys : List String := []
  keyPenalties : List (String × ℚ) := []
deriving DecidableEq

/-- `FingerConfigMap`, a partial record finger → config, modelled as an
association list in `Object.entries` order. -/
abbrev FingerConfigMap : Type := List (Finger × FingerConfig)

/-- User-defined locked bindings: action name → key code (a JS `Map`). -/
abbrev LockedBinds : Type := List (String × String)

/-- Accumulated frequency load per finger during allocation. -/
abbrev FingerLoad : Type := List (Finger × ℚ)

/-- Configuration for one movement axis. -/
structure AxisConfig : Type where
  positiveKey : String
  negativeKey : String
  fingers : List Finger
  isExclusive : Bool
deriving DecidableEq

/-- User-defined movement key and finger configuration. -/
structure MovementConfig : Type where
  verticalAxis : AxisConfig
  horizontalAxis : AxisConfig
deriving DecidableEq

/-- A key with computed accessibility score from resting positions. -/
structure ScoredKey : Type where
  code : String
  totalScore : ℚ
  bestFinger : Finger
  originKey : String
  isRestingKey : Bool
  isMovement : Bool
deriving DecidableEq

/-- The action type enumeration. -/
inductive ActionType : Type
  | DIRECTIONAL | MOVEMENT | COMBAT | UTILITY | MENU
deriving DecidableEq

/-- A game action to be assigned to a key (`Action` in the source; renamed
because Mathlib already has an `Action`).  `concurrentWith = []` models the
absent optional field. -/
structure GameAction : Type where
  name : String
  priority : ℚ
  type : ActionType
  useFrequency : ℚ
  concurrentWith : List String := []
deriving DecidableEq

/-- Final assignment of an action to a key. -/
structure Binding : Type where
  action : String
  key : String
deriving DecidableEq

/-- Complete layout: action name → key code, a JS `Map`. -/
abbrev Layout : Type := List (String × String)

/-- Penalty weights for the SA cost function. -/
structure PenaltyConfig : Type where
  distanceWeight : ℚ
  frequencyWeight : ℚ
  concurrencyPenalty : ℚ
  exclusiveViolation : ℚ
  unreachablePenalty : ℚ
deriving DecidableEq

/-- SA algorithm parameters. -/
structure SAOptions : Type where
  initialTemp : ℚ
  coolingRate : ℚ
  minTemp : ℚ
  seed : Option ℤ := none
deriving DecidableEq

/-- Default penalty values. -/
def DEFAULT_PENALTIES : PenaltyConfig :=
  { distanceWeight := 1
    frequencyWeight := 1/10
    concurrencyPenalty := 10000
    exclusiveViolation := 100000
    unreachablePenalty := 50000 }

/-- Default SA options. -/
def DEFAULT_SA_OPTIONS : SAOptions :=
  { initialTemp := 1000, coolingRate := 995/1000, minTemp := 1/10 }

-- ═══════════════════════════════════════════════════════════════════════
-- Geometry (src/lib/logic/geometry.ts)
-- ═══════════════════════════════════════════════════════════════════════

def DEFAULT_KEY_HEIGHT : ℚ := 4

structure Point : Type where
  x : ℚ
  y : ℚ
deriving DecidableEq

/-- Returns the center point of a key in 0.25u coordinate space. -/
def getKeyCenter (key : KeyDef) : Point :=
  { x := key.x + key.width / 2
    y := key.y + (key.height.getD DEFAULT_KEY_HEIGHT) / 2 }

/-- Euclidean distance between two points; `sq` abstracts `Math.sqrt`. -/
def euclidean (sq : ℚ → ℚ) (pointA pointB : Point) : ℚ :=
  sq ((pointA.x - pointB.x) * (pointA.x - pointB.x) +
      (pointA.y - pointB.y) * (pointA.y - pointB.y))

/-- Center-to-center distance between two keys; 0 for the same key code. -/
def keyDistance (sq : ℚ → ℚ) (keyA keyB : KeyDef) : ℚ :=
  if keyA.code = keyB.code then 0
  else euclidean sq (getKeyCenter keyA) (getKeyCenter keyB)

/-- Keys sorted by center X coordinate for the spatial-search sweep. -/
def sortKeysByX (keys : List KeyDef) : List KeyDef :=
  stableSort (fun a b => decide ((getKeyCenter a).x ≤ (getKeyCenter b).x)) keys

/-- Map from key code to `KeyDef` (`buildKeyMap`). -/
def buildKeyMap (keys : List KeyDef) : List (String × KeyDef) :=
  mapFromList (keys.map (fun key => (key.code, key)))

-- ═══════════════════════════════════════════════════════════════════════
-- Physical key layouts (types.ts)
-- ═══════════════════════════════════════════════════════════════════════

def ANSI_LAYOUT : List KeyDef := [
  { code := "Backquote", x := 0, y := 0, width := 4 },
  { code := "Digit1", x := 4, y := 0, width := 4 },
  { code := "Digit2", x := 8, y := 0, width := 4 },
  { code := "Digit3", x := 12, y := 0, width := 4 },
  { code := "Digit4", x := 16, y := 0, width := 4 },
  { code := "Digit5", x := 20, y := 0, width := 4 },
  { code := "Digit6", x := 24, y := 0, width := 4 },
  { code := "Digit7", x := 28, y := 0, width := 4 },
  { code := "Digit8", x := 32, y := 0, width := 4 },
  { code := "Digit9", x := 36, y := 0, width := 4 },
  { code := "Digit0", x := 40, y := 0, width := 4 },
  { code := "Minus", x := 44, y := 0, width := 4 },
  { code := "Equal", x := 48, y := 0, width := 4 },
  { code := "Backspace", x := 52, y := 0, width := 8 },
  { code := "Tab", x := 0, y := 4, width := 6 },
  { code := "KeyQ", x := 6, y := 4, width := 4 },
  { code := "KeyW", x := 10, y := 4, width := 4 },
  { code := "KeyE", x := 14, y := 4, width := 4 },
  { code := "KeyR", x := 18, y := 4, width := 4 },
  { code := "KeyT", x := 22, y := 4, width := 4 },
  { code := "KeyY", x := 26, y := 4, width := 4 },
  { code := "KeyU", x := 30, y := 4, width := 4 },
  { code := "KeyI", x := 34, y := 4, width := 4 },
  { code := "KeyO", x := 38, y := 4, width := 4 },
  { code := "KeyP", x := 42, y := 4, width := 4 },
  { code := "BracketLeft", x := 46, y := 4, width := 4 },
  { code := "BracketRight", x := 50, y := 4, width := 4 },
  { code := "Backslash", x := 54, y := 4, width := 6 },
  { code := "CapsLock", x := 0, y := 8, width := 7 },
  { code := "KeyA", x := 7, y := 8, width := 4 },
  { code := "KeyS", x := 11, y := 8, width := 4 },
  { code := "KeyD", x := 15, y := 8, width := 4 },
  { code := "KeyF", x := 19, y := 8, width := 4 },
  { code := "KeyG", x := 23, y := 8, width := 4 },
  { code := "KeyH", x := 27, y := 8, width := 4 },
  { code := "KeyJ", x := 31, y := 8, width := 4 },
  { code := "KeyK", x := 35, y := 8, width := 4 },
  { code := "KeyL", x := 39, y := 8, width := 4 },
  { code := "Semicolon", x := 43, y := 8, width := 4 },
  { code := "Quote", x := 47, y := 8, width := 4 },
  { code := "Enter", x := 51, y := 8, width := 9 },
  { code := "ShiftLeft", x := 0, y := 12, width := 9 },
  { code := "KeyZ", x := 9, y := 12, width := 4 },
  { code := "KeyX", x := 13, y := 12, width := 4 },
  { code := "KeyC", x := 17, y := 12, width := 4 },
  { code := "KeyV", x := 21, y := 12, width := 4 },
  { code := "KeyB", x := 25, y := 12, width := 4 },
  { code := "KeyN", x := 29, y := 12, width := 4 },
  { code := "KeyM", x := 33, y := 12, width := 4 },
  { code := "Comma", x := 37, y := 12, width := 4 },
  { code := "Period", x := 41, y := 12, width := 4 },
  { code := "Slash", x := 45, y := 12, width := 4 },
  { code := "ShiftRight", x := 49, y := 12, width := 11 },
  { code := "ControlLeft", x := 0, y := 16, width := 5 },
  { code := "MetaLeft", x := 5, y := 16, width := 5 },
  { code := "AltLeft", x := 10, y := 16, width := 5 },
  { code := "Space", x := 15, y := 16, width := 4 },
  { code := "SpaceRightSide", x := 19, y := 16, width := 21 },
  { code := "AltRight", x := 40, y := 16, width := 5 },
  { code := "MetaRight", x := 45, y := 16, width := 5 },
  { code := "ContextMenu", x := 50, y := 16, width := 5 },
  { code := "ControlRight", x := 55, y := 16, width := 5 }]

def MOUSE_LAYOUT : List KeyDef := [
  { code := "MouseLeft", x := 70, y := 4, width := 4 },
  { code := "MouseUp", x := 74, y := 0, width := 4 },
  { code := "MouseRight", x := 78, y := 4, width := 4 },
  { code := "Mouse4", x := 66, y := 8, width := 4 },
  { code := "MouseMiddle", x := 74, y := 4, width := 4 },
  { code := "Mouse5", x := 66, y := 12, width := 4 },
  { code := "MouseDown", x := 74, y := 8, width := 4 }]

-- ═══════════════════════════════════════════════════════════════════════
-- Optimizer class: geometry queries and the key scorer (Optimizer.ts)
-- ═══════════════════════════════════════════════════════════════════════

/-- `this.keyMap` of the `Optimizer` constructor. -/
def optKeyMap : List (String × KeyDef) := buildKeyMap (ANSI_LAYOUT ++ MOUSE_LAYOUT)

/-- `this.sortedKeysX` of the `Optimizer` constructor. -/
def optSortedKeysX : List KeyDef := sortKeysByX (ANSI_LAYOUT ++ MOUSE_LAYOUT)

/-- `Optimizer.getDistance`: center distance between two key ids, `-1` when
either id is unknown. -/
def getDistance (sq : ℚ → ℚ) (key1Id key2Id : String) : ℚ :=
  match alookup key1Id optKeyMap, alookup key2Id optKeyMap with
  | some key1, some key2 => keyDistance sq key1 key2
  | _, _ => -1

/-- The x-window sweep body of `Optimizer.findKeysWithinRadius`, over an
arbitrary x-sorted key list (the class applies it to `this.sortedKeysX`).
`continue` skips, the `break` on the right window edge ends the scan. -/
def sweepWithinRadius (sq : ℚ → ℚ) (center : Point) (maxDistance : ℚ)
    (excludeCode : Option String) : List KeyDef → List (String × ℚ)
  | [] => []
  | keyDefinition :: rest =>
    let keyCenter := getKeyCenter keyDefinition
    if keyCenter.x < center.x - maxDistance then
      sweepWithinRadius sq center maxDistance excludeCode rest
    else if keyCenter.x > center.x + maxDistance then []
    else if |keyCenter.y - center.y| > maxDistance then
      sweepWithinRadius sq center maxDistance excludeCode rest
    else if excludeCode = some keyDefinition.code then
      sweepWithinRadius sq center maxDistance excludeCode rest
    else
      let distance := euclidean sq center keyCenter
      if distance > maxDistance then
        sweepWithinRadius sq center maxDistance excludeCode rest
      else (keyDefinition.code, distance) ::
        sweepWithinRadius sq center maxDistance excludeCode rest

/-- `Optimizer.findKeysWithinRadius` on the instance's x-sorted key list. -/
def findKeysWithinRadius (sq : ℚ → ℚ) (center : Point) (maxDistance : ℚ)
    (excludeCode : Option String) : List (String × ℚ) :=
  sweepWithinRadius sq center maxDistance excludeCode optSortedKeysX

/-- Modelled from the spec: the naive O(n) reference scan that the sweep is
claimed to be equivalent to — keep every key (other than the excluded one)
whose true distance from the query center is within the radius. -/
def naiveKeysWithinRadius (sq : ℚ → ℚ) (center : Point) (maxDistance : ℚ)
    (excludeCode : Option String) (keys : List KeyDef) : List (String × ℚ) :=
  (keys.filter (fun k => excludeCode ≠ some k.code ∧
      euclidean sq center (getKeyCenter k) ≤ maxDistance)).map
    (fun k => (k.code, euclidean sq center (getKeyCenter k)))

/-- Result record of `findClosestRestingFinger`. -/
structure FingerResult : Type where
  finger : Finger
  originKey : String
  distance : ℚ
deriving DecidableEq

/-- First loop of `findClosestRestingFinger`: exclusive-key short circuit.
A `-1` distance lookup `continue`s with the remaining entries. -/
def exclusiveFingerSearch (sq : ℚ → ℚ) (keyCode : String) :
    List (Finger × FingerConfig) → Option FingerResult
  | [] => none
  | (finger, config) :: rest =>
    if keyCode ∈ config.exclusiveKeys then
      let penalty := (alookup keyCode config.keyPenalties).getD 0
      if keyCode = config.restingKey then
        some { finger := finger, originKey := config.restingKey, distance := penalty }
      else
        let dist := getDistance sq keyCode config.restingKey
        if dist = -1 then exclusiveFingerSearch sq keyCode rest
        else some { finger := finger, originKey := config.restingKey,
                    distance := dist + penalty }
    else exclusiveFingerSearch sq keyCode rest

/-- Second loop of `findClosestRestingFinger`: normal minimum search over
fingers without exclusive keys, with the resting-key early return. -/
def normalFingerSearch (sq : ℚ → ℚ) (keyCode : String)
    (best : Option FingerResult) :
    List (Finger × FingerConfig) → Option FingerResult
  | [] => best
  | (finger, config) :: rest =>
    if config.exclusiveKeys ≠ [] then normalFingerSearch sq keyCode best rest
    else
      let penalty := (alookup keyCode config.keyPenalties).getD 0
      if keyCode = config.restingKey then
        some { finger := finger, originKey := config.restingKey, distance := penalty }
      else
        let dist := getDistance sq keyCode config.restingKey
        if dist = -1 then normalFingerSearch sq keyCode best rest
        else
          let totalDist := dist + penalty
          match best with
          | none => normalFingerSearch sq keyCode
              (some { finger := finger, originKey := config.restingKey,
                      distance := totalDist }) rest
          | some b =>
            if totalDist < b.distance then
              normalFingerSearch sq keyCode
                (some { finger := finger, originKey := config.restingKey,
                        distance := totalDist }) rest
            else normalFingerSearch sq keyCode best rest

/-- `Optimizer.findClosestRestingFinger`. -/
def findClosestRestingFinger (sq : ℚ → ℚ) (keyCode : String)
    (fingerConfig : FingerConfigMap) : Option FingerResult :=
  match exclusiveFingerSearch sq keyCode fingerConfig with
  | some r => some r
  | none => normalFingerSearch sq keyCode none fingerConfig

/-- `Optimizer.scoreKey`. -/
def scoreKey (sq : ℚ → ℚ) (keyCode : String) (fingerConfig : FingerConfigMap)
    (movementKeys : List String) : Option ScoredKey :=
  match findClosestRestingFinger sq keyCode fingerConfig with
  | none => none
  | some result =>
    some { code := keyCode
           totalScore := result.distance
           bestFinger := result.finger
           originKey := result.originKey
           isRestingKey := result.distance = 0
           isMovement := keyCode ∈ movementKeys }

/-- `Optimizer.scoreKeys`. -/
def scoreKeys (sq : ℚ → ℚ) (fingerConfig : FingerConfigMap)
    (movementKeys : List String) (allKeyCodes : List String) : List ScoredKey :=
  allKeyCodes.filterMap (fun code => scoreKey sq code fingerConfig movementKeys)

-- ═══════════════════════════════════════════════════════════════════════
-- Greedy allocator (Optimizer.ts)
-- ═══════════════════════════════════════════════════════════════════════

/-- `Optimizer.sortActionsByFrequency`: stable descending sort by frequency
(JS comparator `(a, b) => b.useFrequency - a.useFrequency`). -/
def sortActionsByFrequency (actions : List GameAction) : List GameAction :=
  stableSort (fun a b => decide (b.useFrequency ≤ a.useFrequency)) actions

/-- `Optimizer.getPrioritizedKeyList`: ascending by score. -/
def getPrioritizedKeyList (scoredKeys : List ScoredKey) : List ScoredKey :=
  stableSort (fun a b => decide (a.totalScore ≤ b.totalScore)) scoredKeys

/-- `Optimizer.buildMovementKeySet`. -/
def buildMovementKeySet (config : MovementConfig) : List String :=
  [config.verticalAxis.positiveKey, config.verticalAxis.negativeKey,
   config.horizontalAxis.positiveKey, config.horizontalAxis.negativeKey]

/-- `Optimizer.buildExclusiveMovementFingers`. -/
def buildExclusiveMovementFingers (config : MovementConfig) : List Finger :=
  (if config.verticalAxis.isExclusive then config.verticalAxis.fingers else []) ++
  (if config.horizontalAxis.isExclusive then config.horizontalAxis.fingers else [])

/-- `Optimizer.findAxisForAction`: semantic axis from name substrings. -/
def findAxisForAction (action : GameAction) (config : MovementConfig) :
    Option AxisConfig :=
  if strIncludes action.name "forward" || strIncludes action.name "backward" then
    some config.verticalAxis
  else if strIncludes action.name "left" || strIncludes action.name "right" then
    some config.horizontalAxis
  else none

/-- `Optimizer.getBlockedFingersForConcurrency`; only membership in the
resulting set is ever used. -/
def getBlockedFingersForConcurrency (action : GameAction)
    (actionFingerMap : List (String × List Finger))
    (allActions : List GameAction) : List Finger :=
  (action.concurrentWith.flatMap
     (fun otherName => (alookup otherName actionFingerMap).getD [])) ++
  ((allActions.filter (fun other => action.name ∈ other.concurrentWith)).flatMap
     (fun other => (alookup other.name actionFingerMap).getD []))

/-- `Optimizer.addFingerLoad`. -/
def addFingerLoad (fingerLoad : FingerLoad) (finger : Finger) (frequency : ℚ) :
    FingerLoad :=
  mapSet fingerLoad finger ((alookup finger fingerLoad).getD 0 + frequency)

/-- The locked key of an action if the lock map holds a truthy (non-empty)
key for it — the `const lockedKey = lockedBinds.get(action.name);
if (lockedKey)` test. -/
def lockedKeyOf (lockedBinds : LockedBinds) (name : String) : Option String :=
  match alookup name lockedBinds with
  | some k => if k = "" then none else some k
  | none => none

/-- `Optimizer.allocateMovementAction`.  Returns the binding, the axis
fingers and the updated finger load. -/
def allocateMovementAction (action : GameAction) (scoredKeys : List ScoredKey)
    (boundKeys : List String) (movementConfig : MovementConfig)
    (fingerLoad : FingerLoad) :
    Option (Binding × List Finger × FingerLoad) :=
  match findAxisForAction action movementConfig with
  | none => none
  | some axisConfig =>
    let targetKeys := [axisConfig.positiveKey, axisConfig.negativeKey]
    match scoredKeys.find? (fun key =>
        decide (key.code ∈ targetKeys) && decide (key.code ∉ boundKeys)) with
    | none => none
    | some bestKey =>
      let fingerLoad2 :=
        match axisConfig.fingers with
        | [] => fingerLoad
        | primaryFinger :: _ => addFingerLoad fingerLoad primaryFinger action.useFrequency
      some ({ action := action.name, key := bestKey.code }, axisConfig.fingers,
            fingerLoad2)

/-- One candidate filter of `allocateNonMovementAction`'s loop: all the
`continue` guards up to and including the priority-scaled reach cap. -/
def nonMovementEligible (action : GameAction) (boundKeys lockedKeySet : List String)
    (fingerConfig : FingerConfigMap) (movementKeys : List String)
    (movementFingers availableFingers blockedFingers : List Finger)
    (scoredKey : ScoredKey) : Bool :=
  decide (scoredKey.code ∉ boundKeys) &&
  decide (scoredKey.code ∉ lockedKeySet) &&
  decide (scoredKey.code ∉ movementKeys) &&
  decide (scoredKey.bestFinger ∉ movementFingers) &&
  decide (scoredKey.bestFinger ∈ availableFingers) &&
  decide (scoredKey.bestFinger ∉ blockedFingers) &&
  match alookup scoredKey.bestFinger fingerConfig with
  | none => false
  | some config =>
    decide (action.priority = 0) ||
    decide (scoredKey.totalScore ≤
      4 + (config.reach - 4) * ((100 - action.priority) / 99))

/-- The load-adjusted candidate score of `allocateNonMovementAction`. -/
def nonMovementScore (action : GameAction) (fingerLoad : FingerLoad)
    (scoredKey : ScoredKey) : ℚ :=
  scoredKey.totalScore - action.useFrequency * (1/10) +
    ((alookup scoredKey.bestFinger fingerLoad).getD 0) * (1/20)

/-- The strict-minimum fold of `allocateNonMovementAction`'s loop (first
minimum wins: a candidate only replaces the best on a strictly smaller
score). -/
def nonMovementBest (action : GameAction) (boundKeys lockedKeySet : List String)
    (fingerLoad : FingerLoad) (fingerConfig : FingerConfigMap)
    (movementKeys : List String)
    (movementFingers availableFingers blockedFingers : List Finger)
    (best : Option (ScoredKey × ℚ)) :
    List ScoredKey → Option (ScoredKey × ℚ)
  | [] => best
  | scoredKey :: rest =>
    if nonMovementEligible action boundKeys lockedKeySet fingerConfig movementKeys
        movementFingers availableFingers blockedFingers scoredKey then
      let totalScore := nonMovementScore action fingerLoad scoredKey
      match best with
      | none => nonMovementBest action boundKeys lockedKeySet fingerLoad
          fingerConfig movementKeys movementFingers availableFingers
          blockedFingers (some (scoredKey, totalScore)) rest
      | some (bk, minimumScore) =>
        if totalScore ≥ minimumScore then
          nonMovementBest action boundKeys lockedKeySet fingerLoad fingerConfig
            movementKeys movementFingers availableFingers blockedFingers
            (some (bk, minimumScore)) rest
        else
          nonMovementBest action boundKeys lockedKeySet fingerLoad fingerConfig
            movementKeys movementFingers availableFingers blockedFingers
            (some (scoredKey, totalScore)) rest
    else
      nonMovementBest action boundKeys lockedKeySet fingerLoad fingerConfig
        movementKeys movementFingers availableFingers blockedFingers best rest

/-- `Optimizer.allocateNonMovementAction`. -/
def allocateNonMovementAction (action : GameAction) (scoredKeys : List ScoredKey)
    (boundKeys lockedKeySet : List String) (fingerLoad : FingerLoad)
    (fingerConfig : FingerConfigMap) (movementKeys : List String)
    (movementFingers availableFingers : List Finger)
    (actionFingerMap : List (String × List Finger))
    (allActions : List GameAction) :
    Option (Binding × List Finger × FingerLoad) :=
  let blockedFingers :=
    getBlockedFingersForConcurrency action actionFingerMap allActions
  match nonMovementBest action boundKeys lockedKeySet fingerLoad fingerConfig
      movementKeys movementFingers availableFingers blockedFingers none
      scoredKeys with
  | none => none
  | some (bestKey, _) =>
    some ({ action := action.name, key := bestKey.code }, [bestKey.bestFinger],
          addFingerLoad fingerLoad bestKey.bestFinger action.useFrequency)

/-- `Optimizer.allocateActionWithLoad`. -/
def allocateActionWithLoad (action : GameAction) (scoredKeys : List ScoredKey)
    (boundKeys : List String) (lockedBinds : LockedBinds)
    (lockedKeySet : List String) (fingerLoad : FingerLoad)
    (fingerConfig : FingerConfigMap) (movementConfig : MovementConfig)
    (movementKeys : List String) (movementFingers availableFingers : List Finger)
    (actionFingerMap : List (String × List Finger))
    (allActions : List GameAction) :
    Option (Binding × List Finger × FingerLoad) :=
  match lockedKeyOf lockedBinds action.name with
  | some lockedKey =>
    let finger :=
      match scoredKeys.find? (fun k => k.code = lockedKey) with
      | some keyScore => keyScore.bestFinger
      | none => Finger.RightIndex
    some ({ action := action.name, key := lockedKey }, [finger], fingerLoad)
  | none =>
    if action.type = ActionType.DIRECTIONAL then
      allocateMovementAction action scoredKeys boundKeys movementConfig fingerLoad
    else
      allocateNonMovementAction action scoredKeys boundKeys lockedKeySet
        fingerLoad fingerConfig movementKeys movementFingers availableFingers
        actionFingerMap allActions

/-- Mutable state of one allocation pass. -/
structure AllocState : Type where
  bindings : List Binding
  boundKeys : List String
  fingerLoad : FingerLoad
  actionFingerMap : List (String × List Finger)

/-- The per-action step of `allocatePass`'s loop. -/
def allocStep (scoredKeys : List ScoredKey) (lockedBinds : LockedBinds)
    (lockedKeySet : List String) (fingerConfig : FingerConfigMap)
    (movementConfig : MovementConfig) (movementKeys : List String)
    (movementFingers availableFingers : List Finger)
    (allActions : List GameAction) (st : AllocState) (action : GameAction) :
    AllocState :=
  match allocateActionWithLoad action scoredKeys st.boundKeys lockedBinds
      lockedKeySet st.fingerLoad fingerConfig movementConfig movementKeys
      movementFingers availableFingers st.actionFingerMap allActions with
  | none => st
  | some (binding, fingers, fingerLoad2) =>
    { bindings := st.bindings ++ [binding]
      boundKeys := binding.key :: st.boundKeys
      fingerLoad := fingerLoad2
      actionFingerMap := mapSet st.actionFingerMap action.name fingers }

/-- `Optimizer.allocatePass`. -/
def allocatePass (actions : List GameAction) (scoredKeys : List ScoredKey)
    (fingerConfig : FingerConfigMap) (movementConfig : MovementConfig)
    (availableFingers : List Finger) (lockedBinds : LockedBinds) : AllocState :=
  let sortedActions := sortActionsByFrequency actions
  let lockedKeySet := lockedBinds.map Prod.snd
  let movementKeys := buildMovementKeySet movementConfig
  let movementFingers := buildExclusiveMovementFingers movementConfig
  sortedActions.foldl
    (allocStep scoredKeys lockedBinds lockedKeySet fingerConfig movementConfig
      movementKeys movementFingers availableFingers actions)
    { bindings := [], boundKeys := [], fingerLoad := [], actionFingerMap := [] }

/-- `Optimizer.findDisplacementVictim`. -/
def findDisplacementVictim (concurrentAction : GameAction)
    (bindings : List Binding) (actionFingerMap : List (String × List Finger))
    (allActions : List GameAction) : Option Binding :=
  let blockedFingers := getBlockedFingersForConcurrency concurrentAction
    actionFingerMap allActions
  let candidates := bindings.filter (fun b =>
    match alookup b.action actionFingerMap with
    | none => false
    | some fingers => fingers.any (fun f => decide (f ∉ blockedFingers)))
  let evictable := candidates.filter
    (fun b => decide (b.action ∉ concurrentAction.concurrentWith))
  match evictable with
  | [] => none
  | _ =>
    let actionMap := mapFromList (allActions.map (fun a => (a.name, a)))
    let freqOf : Binding → ℚ := fun b =>
      match alookup b.action actionMap with
      | some a => a.useFrequency
      | none => 0
    match stableSort (fun a b => decide (freqOf a ≤ freqOf b)) evictable with
    | [] => none
    | v :: _ => some v

/-- `Optimizer.allocate`: first pass, then one displacement-repair pass. -/
def allocate (actions : List GameAction) (scoredKeys : List ScoredKey)
    (fingerConfig : FingerConfigMap) (movementConfig : MovementConfig)
    (availableFingers : List Finger) (lockedBinds : LockedBinds) :
    List Binding :=
  let firstPassResult := allocatePass actions scoredKeys fingerConfig
    movementConfig availableFingers lockedBinds
  let assignedNames := firstPassResult.bindings.map Binding.action
  let unassignedConcurrent := actions.filter (fun a =>
    decide (a.name ∉ assignedNames) && decide (a.concurrentWith ≠ []))
  if unassignedConcurrent = [] then firstPassResult.bindings
  else
    let newLocks := unassignedConcurrent.foldl (fun locks action =>
      match findDisplacementVictim action firstPassResult.bindings
          firstPassResult.actionFingerMap actions with
      | some victim => mapSet locks action.name victim.key
      | none => locks) lockedBinds
    (allocatePass actions scoredKeys fingerConfig movementConfig
      availableFingers newLocks).bindings

-- ═══════════════════════════════════════════════════════════════════════
-- Friction cost function (CostFunction.ts)
-- ═══════════════════════════════════════════════════════════════════════

/-- Pre-computed lookups for the friction calculation. -/
structure FrictionContext : Type where
  actions : List GameAction
  scoredKeys : List ScoredKey
  fingerConfig : FingerConfigMap
  movementConfig : MovementConfig
  keyToFinger : List (String × Finger)
  keyToDistance : List (String × ℚ)
  movementKeySet : List String
  movementActionToKey : List (String × String)
  fingerExclusiveKeys : List (Finger × List String)

/-- `buildMovementActionMap` (the SA module's movement-action → key map). -/
def buildMovementActionMap (actions : List GameAction)
    (config : MovementConfig) : List (String × String) :=
  actions.foldl (fun map action =>
    if action.type ≠ ActionType.DIRECTIONAL then map
    else if strIncludes action.name "forward" then
      mapSet map action.name config.verticalAxis.positiveKey
    else if strIncludes action.name "backward" then
      mapSet map action.name config.verticalAxis.negativeKey
    else if strIncludes action.name "left" then
      mapSet map action.name config.horizontalAxis.negativeKey
    else if strIncludes action.name "right" then
      mapSet map action.name config.horizontalAxis.positiveKey
    else map) []

/-- `buildFrictionContext`. -/
def buildFrictionContext (actions : List GameAction)
    (scoredKeys : List ScoredKey) (fingerConfig : FingerConfigMap)
    (movementConfig : MovementConfig) : FrictionContext :=
  { actions := actions
    scoredKeys := scoredKeys
    fingerConfig := fingerConfig
    movementConfig := movementConfig
    keyToFinger := scoredKeys.foldl
      (fun m sk => mapSet m sk.code sk.bestFinger) []
    keyToDistance := scoredKeys.foldl
      (fun m sk => mapSet m sk.code sk.totalScore) []
    movementKeySet := buildMovementKeySet movementConfig
    movementActionToKey := buildMovementActionMap actions movementConfig
    fingerExclusiveKeys := fingerConfig.foldl (fun m p =>
      if p.2.exclusiveKeys ≠ [] then mapSet m p.1 p.2.exclusiveKeys else m) [] }

/-- `buildExclusiveFingerSet` of CostFunction.ts (same content as the
allocator's `buildExclusiveMovementFingers`). -/
def buildExclusiveFingerSet (config : MovementConfig) : List Finger :=
  (if config.verticalAxis.isExclusive then config.verticalAxis.fingers else []) ++
  (if config.horizontalAxis.isExclusive then config.horizontalAxis.fingers else [])

/-- The friction contribution of one layout entry `(actionName, keyCode)`:
categories 1–7 of `calculateFriction`'s loop body. -/
def frictionEntry (layout : Layout) (ctx : FrictionContext) (p : PenaltyConfig)
    (actionMap : List (String × GameAction)) (exclusiveFingers : List Finger)
    (entry : String × String) : ℚ :=
  match alookup entry.1 actionMap with
  | none => 0
  | some action =>
    let keyCode := entry.2
    let fingerOpt := alookup keyCode ctx.keyToFinger
    let distance := (alookup keyCode ctx.keyToDistance).getD 100
    (if action.type = ActionType.DIRECTIONAL then
       match alookup entry.1 ctx.movementActionToKey with
       | some correctKey =>
         if correctKey ≠ "" ∧ keyCode ≠ correctKey then 1000000 else 0
       | none => 0
     else 0) +
    (if action.type ≠ ActionType.DIRECTIONAL ∧ keyCode ∈ ctx.movementKeySet
     then 500000 else 0) +
    (match fingerOpt with
     | none => 0
     | some finger =>
       (match alookup finger ctx.fingerExclusiveKeys with
        | some fingerExclusive =>
          if keyCode ∉ fingerExclusive then 200000 else 0
        | none => 0) +
       ((ctx.fingerExclusiveKeys.filter (fun q =>
           decide (q.1 ≠ finger) && decide (keyCode ∈ q.2))).length : ℚ) * 200000) +
    (distance * action.useFrequency * p.frequencyWeight +
     distance * p.distanceWeight) +
    (match fingerOpt with
     | none => 0
     | some finger =>
       if finger ∈ exclusiveFingers ∧ action.type ≠ ActionType.DIRECTIONAL
       then p.exclusiveViolation else 0) +
    (match fingerOpt with
     | none => 0
     | some finger =>
       match alookup finger ctx.fingerConfig with
       | some config => if distance > config.reach then p.unreachablePenalty else 0
       | none => 0) +
    (action.concurrentWith.map (fun otherName =>
       match alookup otherName layout with
       | none => 0
       | some otherKey =>
         if otherKey = "" then 0
         else
           match fingerOpt, alookup otherKey ctx.keyToFinger with
           | some finger, some otherFinger =>
             if finger = otherFinger then p.concurrencyPenalty else 0
           | _, _ => 0)).sum

/-- `calculateFingerLoads` (also the load half of `calculateLoadImbalance`). -/
def fingerLoadsOf (layout : Layout) (ctx : FrictionContext)
    (actionMap : List (String × GameAction)) : List (Finger × ℚ) :=
  layout.foldl (fun loads entry =>
    match alookup entry.1 actionMap, alookup entry.2 ctx.keyToFinger with
    | some action, some finger =>
      mapSet loads finger ((alookup finger loads).getD 0 + action.useFrequency)
    | _, _ => loads) []

/-- `calculateLoadImbalance`. -/
def calculateLoadImbalance (layout : Layout) (ctx : FrictionContext)
    (actionMap : List (String × GameAction)) : ℚ :=
  let fingerLoads := fingerLoadsOf layout ctx actionMap
  if fingerLoads.length < 2 then 0
  else (listMaxQ (valsOf fingerLoads) - listMinQ (valsOf fingerLoads)) * (1/2)

/-- `calculateFriction`: total friction score of a layout, lower = better. -/
def calculateFriction (layout : Layout) (ctx : FrictionContext)
    (p : PenaltyConfig) : ℚ :=
  let actionMap := mapFromList (ctx.actions.map (fun a => (a.name, a)))
  let exclusiveFingers := buildExclusiveFingerSet ctx.movementConfig
  (layout.map (frictionEntry layout ctx p actionMap exclusiveFingers)).sum +
    calculateLoadImbalance layout ctx actionMap

/-- `calculateFingerLoads` as exported by CostFunction.ts. -/
def calculateFingerLoads (layout : Layout) (ctx : FrictionContext) :
    List (Finger × ℚ) :=
  fingerLoadsOf layout ctx (mapFromList (ctx.actions.map (fun a => (a.name, a))))

-- ═══════════════════════════════════════════════════════════════════════
-- Simulated annealing (Optimizer SA module)
-- ═══════════════════════════════════════════════════════════════════════

/-- Round an integer to the nearest multiple of `2 ^ k`, ties to the even
multiple: the rounding a 53-bit-significand binary float applies at a
granularity (ulp) of `2 ^ k`. -/
def rnE (x : ℤ) (k : ℕ) : ℤ :=
  let q := x / 2 ^ k
  let r := x % 2 ^ k
  if r < 2 ^ (k - 1) then q * 2 ^ k
  else if (2 ^ (k - 1) : ℤ) < r then (q + 1) * 2 ^ k
  else if q % 2 = 0 then q * 2 ^ k else (q + 1) * 2 ^ k

/-- An integer as the nearest IEEE-754 double (round to nearest, ties to
even): exact below `2 ^ 53`, otherwise rounded at the ulp of its binade,
`2 ^ (log2 |x| - 52)`. -/
def fl53 (x : ℤ) : ℤ :=
  if x.natAbs < 2 ^ 53 then x else rnE x (x.natAbs.log2 - 52)

/-- The seed update `(seed * 1103515245 + 12345) & 0x7fffffff` as JS
computes it on doubles: the product and the sum each round to the nearest
double (`fl53`), a product past the double range is `Infinity`, which
`ToInt32` maps to 0, and `& 0x7fffffff` takes the low 31 bits, `% 2^31`. -/
def nextSeedJS (seed : ℤ) : ℤ :=
  let P := fl53 (seed * 1103515245)
  if P.natAbs < 2 ^ 1024 then fl53 (P + 12345) % (2 ^ 31) else 0

/-- Seeded random number generator.  `next` is
`seed = (seed * 1103515245 + 12345) & 0x7fffffff; return seed / 0x7fffffff`
with the double rounding of the update modelled exactly by `nextSeedJS`
and the divisor `0x7fffffff = 2^31 - 1`; the final division is kept as an
exact rational (the double quotient differs from it by less than one part
in `2^52`, which affects none of the proved bounds). -/
structure SeededRandom : Type where
  seed : ℤ
deriving DecidableEq

def SeededRandom.next (r : SeededRandom) : ℚ × SeededRandom :=
  let s : ℤ := nextSeedJS r.seed
  ((s : ℚ) / ((2 : ℚ) ^ 31 - 1), ⟨s⟩)

/-- `pick`: `arr[Math.floor(this.next() * arr.length)]`; `none` models the
`undefined` of an out-of-bounds access. -/
def SeededRandom.pick {α : Type} (arr : List α) (r : SeededRandom) :
    Option α × SeededRandom :=
  (arr.get? (⌊(r.next).1 * (arr.length : ℚ)⌋).toNat, (r.next).2)

/-- `pickTwo`: two draws, the second index skipping over the first. -/
def SeededRandom.pickTwo {α : Type} (arr : List α) (r : SeededRandom) :
    (Option α × Option α) × SeededRandom :=
  let i : ℕ := (⌊(r.next).1 * (arr.length : ℚ)⌋).toNat
  let r1 := (r.next).2
  let j0 : ℤ := ⌊(r1.next).1 * ((arr.length : ℚ) - 1)⌋
  let j : ℤ := if j0 ≥ (i : ℤ) then j0 + 1 else j0
  ((arr.get? i, arr.get? j.toNat), (r1.next).2)

/-- The SA `swap` helper; the arguments may be `undefined` (a failed `pick`),
and empty-string keys are falsy, in which case the layout is returned
unswapped (as a copy in the source). -/
def swapJS (layout : Layout) (actionA actionB : Option String) : Layout :=
  match actionA, actionB with
  | some a, some b =>
    match alookup a layout, alookup b layout with
    | some keyA, some keyB =>
      if keyA ≠ "" ∧ keyB ≠ "" then mapSet (mapSet layout a keyB) b keyA
      else layout
    | _, _ => layout
  | _, _ => layout

/-- State of `generateInitialLayout`'s construction. -/
structure GLState : Type where
  layout : Layout
  usedKeys : List String
  usedActions : List String

/-- Inner loop of `generateInitialLayout` step 2: hand the free exclusive
keys of one finger to the highest-frequency unassigned actions; the search
for an unassigned action failing once ends the loop (`break`). -/
def assignExclusiveKeys (nonMovement : List GameAction) :
    GLState → List String → GLState
  | st, [] => st
  | st, key :: rest =>
    if key ∈ st.usedKeys then assignExclusiveKeys nonMovement st rest
    else
      match nonMovement.find? (fun a => decide (a.name ∉ st.usedActions)) with
      | none => st
      | some action =>
        assignExclusiveKeys nonMovement
          { layout := mapSet st.layout action.name key
            usedKeys := key :: st.usedKeys
            usedActions := action.name :: st.usedActions } rest

/-- Outer loop of `generateInitialLayout` step 2 over the finger configs. -/
def assignExclusiveFingers (nonMovement : List GameAction) :
    GLState → List (Finger × FingerConfig) → GLState
  | st, [] => st
  | st, (_, config) :: rest =>
    if config.exclusiveKeys = [] then assignExclusiveFingers nonMovement st rest
    else assignExclusiveFingers nonMovement
      (assignExclusiveKeys nonMovement st config.exclusiveKeys) rest

/-- Step 3 of `generateInitialLayout`: first-fit of the remaining actions
onto the remaining scored keys in list order. -/
def assignRemaining (scoredKeys : List ScoredKey) :
    GLState → List GameAction → GLState
  | st, [] => st
  | st, action :: rest =>
    match scoredKeys.find? (fun sk => decide (sk.code ∉ st.usedKeys)) with
    | none => assignRemaining scoredKeys st rest
    | some sk =>
      assignRemaining scoredKeys
        { layout := mapSet st.layout action.name sk.code
          usedKeys := sk.code :: st.usedKeys
          usedActions := st.usedActions } rest

/-- `generateInitialLayout`. -/
def generateInitialLayout (actions : List GameAction)
    (scoredKeys : List ScoredKey) (movementConfig : MovementConfig)
    (fingerConfig : FingerConfigMap) : Layout :=
  let movementMap := buildMovementActionMap actions movementConfig
  let st1 : GLState := movementMap.foldl
    (fun st p =>
      { layout := mapSet st.layout p.1 p.2
        usedKeys := p.2 :: st.usedKeys
        usedActions := p.1 :: st.usedActions })
    { layout := [], usedKeys := [], usedActions := [] }
  let nonMovement := stableSort (fun a b => decide (b.useFrequency ≤ a.useFrequency))
    (actions.filter (fun a => decide (a.name ∉ st1.usedActions)))
  let st2 := assignExclusiveFingers nonMovement st1 fingerConfig
  let remaining := nonMovement.filter (fun a => decide (a.name ∉ st2.usedActions))
  (assignRemaining scoredKeys st2 remaining).layout

/-- Inner loop of `mutate`'s concurrent-conflict scan over one action's
`concurrentWith` list; returns the partner to move and the non-conflicting
pool if a same-finger conflict with a non-empty pool is found. -/
def conflictScanOthers (layout : Layout) (keyToFinger : List (String × Finger))
    (actionNames : List String) (actionName : String)
    (fingerOpt : Option Finger) : List String → Option (String × List String)
  | [] => none
  | otherName :: rest =>
    match alookup otherName layout with
    | none => conflictScanOthers layout keyToFinger actionNames actionName
        fingerOpt rest
    | some otherKey =>
      if otherKey = "" then
        conflictScanOthers layout keyToFinger actionNames actionName fingerOpt rest
      else
        match fingerOpt, alookup otherKey keyToFinger with
        | some finger, some otherFinger =>
          if finger = otherFinger then
            let nonConflict := actionNames.filter (fun a =>
              decide (a ≠ actionName) && decide (a ≠ otherName))
            if nonConflict ≠ [] then some (otherName, nonConflict)
            else conflictScanOthers layout keyToFinger actionNames actionName
              fingerOpt rest
          else conflictScanOthers layout keyToFinger actionNames actionName
            fingerOpt rest
        | _, _ => conflictScanOthers layout keyToFinger actionNames actionName
            fingerOpt rest

/-- Outer loop of `mutate`'s concurrent-conflict scan over layout entries. -/
def conflictFind (actionMap : List (String × GameAction))
    (keyToFinger : List (String × Finger)) (actionNames : List String)
    (layout : Layout) : List (String × String) → Option (String × List String)
  | [] => none
  | (actionName, key) :: restEntries =>
    match alookup actionName actionMap with
    | none => conflictFind actionMap keyToFinger actionNames layout restEntries
    | some action =>
      match conflictScanOthers layout keyToFinger actionNames actionName
          (alookup key keyToFinger) action.concurrentWith with
      | some found => some found
      | none => conflictFind actionMap keyToFinger actionNames layout restEntries

/-- The shared tail of `mutate`: the concurrent-conflict-resolution move
(also reached by fall-through from the load-balancing branch). -/
def mutateTail (layout : Layout) (actions : List GameAction)
    (keyToFinger : List (String × Finger)) (actionNames : List String)
    (rng : SeededRandom) : Layout × SeededRandom :=
  let actionMap := mapFromList (actions.map (fun a => (a.name, a)))
  match conflictFind actionMap keyToFinger actionNames layout layout with
  | none => (layout, rng)
  | some (otherName, nonConflict) =>
    (swapJS layout (some otherName) (SeededRandom.pick nonConflict rng).1,
     (SeededRandom.pick nonConflict rng).2)

/-- `mutate`: one of three strategies picked from the seeded roll. -/
def mutate (layout : Layout) (fingerLoads : List (Finger × ℚ))
    (actions : List GameAction) (keyToFinger : List (String × Finger))
    (rng : SeededRandom) : Layout × SeededRandom :=
  let actionNames := keysOf layout
  let roll := (rng.next).1
  let rng1 := (rng.next).2
  if roll < 7/10 then
    (swapJS layout (SeededRandom.pickTwo actionNames rng1).1.1
       (SeededRandom.pickTwo actionNames rng1).1.2,
     (SeededRandom.pickTwo actionNames rng1).2)
  else if roll < 9/10 then
    let sorted := stableSort (fun a b => decide (b.2 ≤ a.2)) fingerLoads
    if sorted.length < 2 then (layout, rng1)
    else
      match sorted.head?, sorted.getLast? with
      | some highEntry, some lowEntry =>
        let highFinger := highEntry.1
        let lowFinger := lowEntry.1
        let highActions := actionNames.filter (fun a =>
          match alookup a layout with
          | some key => !(key = "") && decide (alookup key keyToFinger = some highFinger)
          | none => false)
        let lowActions := actionNames.filter (fun a =>
          match alookup a layout with
          | some key => !(key = "") && decide (alookup key keyToFinger = some lowFinger)
          | none => false)
        if highActions ≠ [] ∧ lowActions ≠ [] then
          let pa := (SeededRandom.pick highActions rng1).1
          let rng2 := (SeededRandom.pick highActions rng1).2
          let pb := (SeededRandom.pick lowActions rng2).1
          let rng3 := (SeededRandom.pick lowActions rng2).2
          (swapJS layout pa pb, rng3)
        else mutateTail layout actions keyToFinger actionNames rng1
      | _, _ => (layout, rng1)
  else mutateTail layout actions keyToFinger actionNames rng1

/-- The `while (temp > minTemp)` loop of `optimizeSA`, fuelled.  `accept`
abstracts the float test `rng.next() < Math.exp(-delta / temp)`; by JS
short-circuiting, `rng.next()` is only consumed when `delta ≥ 0`. -/
def saLoop (accept : ℚ → ℚ → ℚ → Bool) (actions : List GameAction)
    (ctx : FrictionContext) (penalties : PenaltyConfig)
    (minTemp coolingRate : ℚ) :
    ℕ → ℚ → Layout → ℚ → Layout → ℚ → SeededRandom → Layout
  | 0, _, _, _, best, _, _ => best
  | fuel + 1, temp, current, currentScore, best, bestScore, rng =>
    if temp > minTemp then
      let fingerLoads := calculateFingerLoads current ctx
      let neighbor := (mutate current fingerLoads actions ctx.keyToFinger rng).1
      let rng1 := (mutate current fingerLoads actions ctx.keyToFinger rng).2
      let neighborScore := calculateFriction neighbor ctx penalties
      let delta := neighborScore - currentScore
      let accepted := if delta < 0 then true else accept ((rng1.next).1) delta temp
      let rng2 := if delta < 0 then rng1 else (rng1.next).2
      if accepted then
        let best2 := if neighborScore < bestScore then neighbor else best
        let bestScore2 := if neighborScore < bestScore then neighborScore else bestScore
        saLoop accept actions ctx penalties minTemp coolingRate fuel
          (temp * coolingRate) neighbor neighborScore best2 bestScore2 rng2
      else
        saLoop accept actions ctx penalties minTemp coolingRate fuel
          (temp * coolingRate) current currentScore best bestScore rng2
    else best

/-- `optimizeSA`.  `now` models `Date.now()`, used only when no seed is
given; `fuel` bounds the cooling loop. -/
def optimizeSA (accept : ℚ → ℚ → ℚ → Bool) (fuel : ℕ)
    (actions : List GameAction) (scoredKeys : List ScoredKey)
    (fingerConfig : FingerConfigMap) (movementConfig : MovementConfig)
    (penalties : PenaltyConfig) (options : SAOptions) (now : ℤ) : Layout :=
  let ctx := buildFrictionContext actions scoredKeys fingerConfig movementConfig
  let rng : SeededRandom := ⟨options.seed.getD now⟩
  let current := generateInitialLayout actions scoredKeys movementConfig fingerConfig
  let currentScore := calculateFriction current ctx penalties
  saLoop accept actions ctx penalties options.minTemp options.coolingRate fuel
    options.initialTemp current currentScore current currentScore rng

/-- `layoutToBindings`. -/
def layoutToBindings (layout : Layout) : List Binding :=
  layout.map (fun p => { action := p.1, key := p.2 })

-- ═══════════════════════════════════════════════════════════════════════
-- Generic lemmas about the helpers
-- ═══════════════════════════════════════════════════════════════════════

theorem alookup_mem {α β : Type} [DecidableEq α] {k : α} {v : β} :
    ∀ {l : List (α × β)}, alookup k l = some v → (k, v) ∈ l := by
  intro l
  induction l with
  | nil => intro h; simp [alookup] at h
  | cons p rest ih =>
    intro h
    obtain ⟨k2, v2⟩ := p
    by_cases hk : k = k2
    · subst hk
      simp [alookup] at h
      subst h
      exact List.mem_cons_self _ _
    · simp only [alookup, if_neg hk] at h
      exact List.mem_cons_of_mem _ (ih h)

theorem alookup_eq_none {α β : Type} [DecidableEq α] {k : α} :
    ∀ {l : List (α × β)}, alookup k l = none ↔ k ∉ keysOf l := by
  intro l
  induction l with
  | nil => simp [alookup, keysOf]
  | cons p rest ih =>
    obtain ⟨k2, v2⟩ := p
    by_cases hk : k = k2
    · subst hk; simp [alookup, keysOf]
    · simp only [alookup, if_neg hk, keysOf, List.map_cons, List.mem_cons]
      rw [keysOf] at ih
      constructor
      · intro h hor
        rcases hor with h2 | h2
        · exact hk h2
        · exact (ih.1 h) h2
      · intro h
        exact ih.2 (fun h2 => h (Or.inr h2))

theorem alookup_isSome {α β : Type} [DecidableEq α] {k : α}
    {l : List (α × β)} (h : k ∈ keysOf l) : ∃ v, alookup k l = some v := by
  cases he : alookup k l with
  | none => exact absurd h (alookup_eq_none.1 he)
  | some v => exact ⟨v, rfl⟩

theorem mem_alookup {α β : Type} [DecidableEq α] {k : α} {v : β} :
    ∀ {l : List (α × β)}, (k, v) ∈ l → (keysOf l).Nodup →
      alookup k l = some v := by
  intro l
  induction l with
  | nil => intro h _; simp at h
  | cons p rest ih =>
    intro hmem hnd
    obtain ⟨k2, v2⟩ := p
    rw [keysOf, List.map_cons, List.nodup_cons] at hnd
    rcases List.mem_cons.1 hmem with heq | hrest
    · obtain ⟨h1, h2⟩ := Prod.mk.inj (heq.symm)
      subst h1; subst h2
      simp [alookup]
    · have hk : k ≠ k2 := by
        intro heq
        apply hnd.1
        have h3 : ((k, v) : α × β).1 ∈ List.map Prod.fst rest :=
          List.mem_map_of_mem Prod.fst hrest
        rw [← heq]
        exact h3
      simp only [alookup, if_neg hk]
      exact ih hrest hnd.2

theorem mapSet_entry_cases {α β : Type} [DecidableEq α] {m : List (α × β)}
    {k : α} {v : β} {p : α × β} (h : p ∈ mapSet m k v) :
    p ∈ m ∨ p = (k, v) := by
  unfold mapSet at h
  by_cases hany : m.any (fun q => decide (q.1 = k))
  · rw [if_pos hany] at h
    obtain ⟨q, hq, hfq⟩ := List.mem_map.1 h
    by_cases hqk : q.1 = k
    · right; rw [if_pos hqk] at hfq; exact hfq.symm
    · left; rw [if_neg hqk] at hfq; exact hfq ▸ hq
  · rw [if_neg hany] at h
    rcases List.mem_append.1 h with h2 | h2
    · exact Or.inl h2
    · exact Or.inr (List.mem_singleton.1 h2)

theorem foldl_mapSet_entry_mem {α β : Type} [DecidableEq α] {p : α × β} :
    ∀ (l acc : List (α × β)),
      p ∈ l.foldl (fun m q => mapSet m q.1 q.2) acc → p ∈ acc ∨ p ∈ l := by
  intro l
  induction l with
  | nil => intro acc h; exact Or.inl h
  | cons q rest ih =>
    intro acc h
    rcases ih (mapSet acc q.1 q.2) h with h2 | h2
    · rcases mapSet_entry_cases h2 with h3 | h3
      · exact Or.inl h3
      · right
        rw [h3]
        exact List.mem_cons_self _ _
    · exact Or.inr (List.mem_cons_of_mem _ h2)

theorem mapFromList_entry_mem {α β : Type} [DecidableEq α] {l : List (α × β)}
    {p : α × β} (h : p ∈ mapFromList l) : p ∈ l := by
  rcases foldl_mapSet_entry_mem l [] h with h2 | h2
  · simp at h2
  · exact h2

theorem mapFromList_lookup_mem {α β : Type} [DecidableEq α] {l : List (α × β)}
    {k : α} {v : β} (h : alookup k (mapFromList l) = some v) : (k, v) ∈ l :=
  mapFromList_entry_mem (alookup_mem h)

theorem insertSorted_perm {α : Type} (le : α → α → Bool) (x : α) :
    ∀ (l : List α), (insertSorted le x l).Perm (x :: l) := by
  intro l
  induction l with
  | nil => simp [insertSorted]
  | cons y ys ih =>
    by_cases h : le x y
    · simp [insertSorted, h]
    · rw [insertSorted, if_neg h]
      exact (ih.cons y).trans (List.Perm.swap x y ys)

theorem stableSort_perm {α : Type} (le : α → α → Bool) :
    ∀ (l : List α), (stableSort le l).Perm l := by
  intro l
  induction l with
  | nil => simp [stableSort]
  | cons x xs ih =>
    exact (insertSorted_perm le x (stableSort le xs)).trans (ih.cons x)

theorem mem_stableSort {α : Type} (le : α → α → Bool) {x : α} {l : List α} :
    x ∈ stableSort le l ↔ x ∈ l :=
  (stableSort_perm le l).mem_iff

theorem insertSorted_pairwise {α : Type} {le : α → α → Bool}
    {r : α → α → Prop} (hle : ∀ a b, le a b = true → r a b)
    (htot : ∀ a b, le a b = false → le b a = true)
    (htrans : ∀ a b c, r a b → r b c → r a c) {x : α} :
    ∀ {l : List α}, l.Pairwise r → (insertSorted le x l).Pairwise r := by
  intro l
  induction l with
  | nil => intro _; simp [insertSorted]
  | cons y ys ih =>
    intro hp
    rcases List.pairwise_cons.1 hp with ⟨hy, hys⟩
    by_cases h : le x y
    · rw [insertSorted, if_pos h]
      refine List.pairwise_cons.2 ⟨?_, hp⟩
      intro z hz
      rcases List.mem_cons.1 hz with rfl | hz2
      · exact hle _ _ h
      · exact htrans _ _ _ (hle _ _ h) (hy z hz2)
    · rw [insertSorted, if_neg h]
      refine List.pairwise_cons.2 ⟨?_, ih hys⟩
      intro z hz
      have hz2 := (insertSorted_perm le x ys).mem_iff.1 hz
      rcases List.mem_cons.1 hz2 with rfl | hz3
      · exact hle _ _ (htot _ _ (by simpa using h))
      · exact hy z hz3

theorem stableSort_pairwise {α : Type} {le : α → α → Bool}
    {r : α → α → Prop} (hle : ∀ a b, le a b = true → r a b)
    (htot : ∀ a b, le a b = false → le b a = true)
    (htrans : ∀ a b c, r a b → r b c → r a c) :
    ∀ (l : List α), (stableSort le l).Pairwise r := by
  intro l
  induction l with
  | nil => simp [stableSort]
  | cons x xs ih => exact insertSorted_pairwise hle htot htrans ih

theorem listMinQ_le_listMaxQ : ∀ (l : List ℚ), listMinQ l ≤ listMaxQ l := by
  have hmin : ∀ (xs : List ℚ) (a : ℚ), xs.foldl min a ≤ a := by
    intro xs
    induction xs with
    | nil => intro a; simp
    | cons y ys ih =>
      intro a
      calc (y :: ys).foldl min a = ys.foldl min (min a y) := rfl
        _ ≤ min a y := ih (min a y)
        _ ≤ a := min_le_left a y
  have hmax : ∀ (xs : List ℚ) (a : ℚ), a ≤ xs.foldl max a := by
    intro xs
    induction xs with
    | nil => intro a; simp
    | cons y ys ih =>
      intro a
      calc a ≤ max a y := le_max_left a y
        _ ≤ ys.foldl max (max a y) := ih (max a y)
        _ = (y :: ys).foldl max a := rfl
  intro l
  cases l with
  | nil => simp [listMinQ, listMaxQ]
  | cons x xs =>
    calc listMinQ (x :: xs) = xs.foldl min x := rfl
      _ ≤ x := hmin xs x
      _ ≤ xs.foldl max x := hmax xs x
      _ = listMaxQ (x :: xs) := rfl

-- ═══════════════════════════════════════════════════════════════════════
-- SeededRandom lemmas (C10)
-- ═══════════════════════════════════════════════════════════════════════

theorem rnE_dvd (x : ℤ) (k : ℕ) : (2 ^ k : ℤ) ∣ rnE x k := by
  unfold rnE
  dsimp only
  split
  · exact dvd_mul_left _ _
  · split
    · exact dvd_mul_left _ _
    · split <;> exact dvd_mul_left _ _

theorem rnE_cases (x : ℤ) (k : ℕ) :
    rnE x k = x - x % 2 ^ k ∨
    (rnE x k = x - x % 2 ^ k + 2 ^ k ∧ 2 ^ (k - 1) ≤ x % 2 ^ k) := by
  have hq : x / 2 ^ k * 2 ^ k = x - x % 2 ^ k := by
    have h := Int.ediv_add_emod x (2 ^ k)
    linarith
  unfold rnE
  dsimp only
  split
  · left; exact hq
  · next h1 =>
    split
    · next h2 => right; exact ⟨by rw [add_mul, one_mul, hq], le_of_lt h2⟩
    · next h2 =>
      have he : x % 2 ^ k = 2 ^ (k - 1) := by omega
      split
      · left; exact hq
      · right; exact ⟨by rw [add_mul, one_mul, hq], by omega⟩

theorem fl53_exact {x : ℤ} (h : x.natAbs < 2 ^ 53) : fl53 x = x := by
  unfold fl53
  rw [if_pos h]

theorem fl53_even {x : ℤ} (h : 2 ^ 53 ≤ x.natAbs) : (2 : ℤ) ∣ fl53 x := by
  unfold fl53
  rw [if_neg (by omega)]
  have hn0 : x.natAbs ≠ 0 := by positivity
  have h53 : 53 ≤ x.natAbs.log2 := (Nat.le_log2 hn0).2 h
  refine dvd_trans ?_ (rnE_dvd x (x.natAbs.log2 - 52))
  exact dvd_pow_self 2 (by omega)

theorem fl53_ge {x : ℤ} (h : (2 : ℤ) ^ 53 ≤ x) : (2 : ℤ) ^ 53 ≤ fl53 x := by
  by_cases hs : x.natAbs < 2 ^ 53
  · rw [fl53_exact hs]; exact h
  · unfold fl53
    rw [if_neg hs]
    set n := x.natAbs with hn
    set e := n.log2 with he
    set k := e - 52 with hk
    have hn0 : n ≠ 0 := by omega
    have h53 : 53 ≤ e := (Nat.le_log2 hn0).2 (by omega)
    have hke : k + 52 = e := by omega
    have hpow : (2 : ℤ) ^ e ≤ x := by
      have h1 : (2 : ℕ) ^ e ≤ n := Nat.log2_self_le hn0
      have h2 : ((2 : ℕ) ^ e : ℤ) ≤ (n : ℤ) := by exact_mod_cast h1
      push_cast at h2
      omega
    have hek : (2 : ℤ) ^ k * 2 ^ 52 = 2 ^ e := by
      rw [← pow_add, hke]
    have hrlt : x % 2 ^ k < 2 ^ k := Int.emod_lt_of_pos _ (by positivity)
    have hrge : 0 ≤ x % 2 ^ k := Int.emod_nonneg _ (by positivity)
    have hdown : (2 : ℤ) ^ e ≤ x - x % 2 ^ k := by
      have hdvd : (2 : ℤ) ^ k ∣ x - x % 2 ^ k := by
        have h := Int.ediv_add_emod x (2 ^ k)
        exact ⟨x / 2 ^ k, by linarith⟩
      obtain ⟨m, hm⟩ := hdvd
      have hmgt : (2 : ℤ) ^ 52 - 1 < m := by
        have hlt : (2 : ℤ) ^ k * (2 ^ 52 - 1) < 2 ^ k * m := by
          rw [← hm]
          have h3 : (2 : ℤ) ^ k * (2 ^ 52 - 1) = 2 ^ e - 2 ^ k := by
            rw [mul_sub, hek]; ring
          omega
        exact lt_of_mul_lt_mul_left hlt (by positivity)
      have hm2 : (2 : ℤ) ^ 52 ≤ m := by omega
      calc (2 : ℤ) ^ e = 2 ^ k * 2 ^ 52 := hek.symm
        _ ≤ 2 ^ k * m := mul_le_mul_of_nonneg_left hm2 (by positivity)
        _ = x - x % 2 ^ k := hm.symm
    have h53e : (2 : ℤ) ^ 53 ≤ 2 ^ e := pow_le_pow_right₀ (by norm_num) h53
    rcases rnE_cases x k with hc | ⟨hc, _⟩
    · rw [hc]; linarith
    · rw [hc]
      have h0 : (0 : ℤ) ≤ 2 ^ k := by positivity
      linarith

theorem fl53_le_neg {x : ℤ} (h : x ≤ -(2 ^ 53)) : fl53 x ≤ -(2 ^ 53) := by
  by_cases hs : x.natAbs < 2 ^ 53
  · rw [fl53_exact hs]; exact h
  · unfold fl53
    rw [if_neg hs]
    set n := x.natAbs with hn
    set e := n.log2 with he
    set k := e - 52 with hk
    have hn0 : n ≠ 0 := by omega
    have h53 : 53 ≤ e := (Nat.le_log2 hn0).2 (by omega)
    have hke : k + 52 = e := by omega
    have hpow : x ≤ -(2 ^ e : ℤ) := by
      have h1 : (2 : ℕ) ^ e ≤ n := Nat.log2_self_le hn0
      have h2 : ((2 : ℕ) ^ e : ℤ) ≤ (n : ℤ) := by exact_mod_cast h1
      push_cast at h2
      omega
    have hrlt : x % 2 ^ k < 2 ^ k := Int.emod_lt_of_pos _ (by positivity)
    have hrge : 0 ≤ x % 2 ^ k := Int.emod_nonneg _ (by positivity)
    have h53e : (2 : ℤ) ^ 53 ≤ 2 ^ e := pow_le_pow_right₀ (by norm_num) h53
    rcases rnE_cases x k with hc | ⟨hc, hhalf⟩
    · rw [hc]; linarith
    · rw [hc]
      have hk1 : 1 ≤ k := by omega
      have hH0 : (0 : ℤ) < 2 ^ (k - 1) := by positivity
      have h2k : (2 : ℤ) ^ k = 2 * 2 ^ (k - 1) := by
        rw [← pow_succ']
        congr 1
        omega
      have h2e : (2 : ℤ) ^ e = 2 ^ (k - 1) * 2 ^ 53 := by
        rw [← pow_add]
        congr 1
        omega
      have hrpos : 0 < x % 2 ^ k := lt_of_lt_of_le hH0 hhalf
      have hxne : x ≠ -(2 ^ e : ℤ) := by
        intro hxe
        have hdvd : (2 ^ k : ℤ) ∣ x := by
          rw [hxe]
          exact (pow_dvd_pow 2 (by omega)).neg_right
        rw [Int.emod_eq_zero_of_dvd hdvd] at hrpos
        exact lt_irrefl 0 hrpos
      have hx1 : x + 1 ≤ -(2 ^ e : ℤ) := by
        have := lt_of_le_of_ne hpow hxne
        omega
      nlinarith [mul_nonneg (by linarith : (0 : ℤ) ≤ 2 ^ (k - 1) - 1)
        (by norm_num : (0 : ℤ) ≤ (2 : ℤ) ^ 53 - 1)]

theorem nextSeedJS_nonneg (seed : ℤ) : 0 ≤ nextSeedJS seed := by
  unfold nextSeedJS
  dsimp only
  split
  · exact Int.emod_nonneg _ (by norm_num)
  · exact le_refl 0

theorem nextSeedJS_lt (seed : ℤ) : nextSeedJS seed < 2 ^ 31 := by
  unfold nextSeedJS
  dsimp only
  split
  · exact Int.emod_lt_of_pos _ (by norm_num)
  · norm_num

/-- The masked updated seed never hits the divisor `0x7fffffff`: an exact
sum lands there only for seeds in the residue class of 230538014 mod 2^31,
all of whose members make the product round (so the update is even or sits
just below `-2^53`, never odd at the mask); hence `next` never returns 1. -/
theorem nextSeedJS_ne (seed : ℤ) : nextSeedJS seed ≠ 2 ^ 31 - 1 := by
  unfold nextSeedJS
  dsimp only
  split
  · next hfin =>
    clear hfin
    by_cases hp : (seed * 1103515245).natAbs < 2 ^ 53
    · rw [fl53_exact hp]
      by_cases hq : (seed * 1103515245 + 12345).natAbs < 2 ^ 53
      · rw [fl53_exact hq]
        intro hmask
        have h := Int.ediv_add_emod (seed * 1103515245 + 12345) (2 ^ 31)
        rw [hmask] at h
        have hdvd : (2 ^ 31 : ℤ) ∣ seed - 230538014 :=
          ⟨1857678181 * ((seed * 1103515245 + 12345) / 2 ^ 31)
             - 954594553 * seed + 1857667501,
           by linear_combination (-1857678181 : ℤ) * h⟩
        obtain ⟨t, ht⟩ := hdvd
        clear h hmask hq
        omega
      · have heven : (2 : ℤ) ∣ fl53 (seed * 1103515245 + 12345) :=
          fl53_even (by omega)
        intro hmask
        omega
    · have heven : (2 : ℤ) ∣ fl53 (seed * 1103515245) := fl53_even (by omega)
      by_cases hq : (fl53 (seed * 1103515245) + 12345).natAbs < 2 ^ 53
      · rw [fl53_exact hq]
        rcases (by omega : (2 : ℤ) ^ 53 ≤ seed * 1103515245 ∨
            seed * 1103515245 ≤ -(2 ^ 53)) with hsgn | hsgn
        · have hge := fl53_ge hsgn
          intro hmask
          omega
        · have hle := fl53_le_neg hsgn
          intro hmask
          omega
      · have heven2 : (2 : ℤ) ∣ fl53 (fl53 (seed * 1103515245) + 12345) :=
          fl53_even (by omega)
        intro hmask
        omega
  · norm_num

theorem seededRandom_next_nonneg (r : SeededRandom) : 0 ≤ (r.next).1 := by
  unfold SeededRandom.next
  dsimp only
  have h : (0 : ℚ) ≤ (nextSeedJS r.seed : ℚ) := by
    exact_mod_cast nextSeedJS_nonneg r.seed
  exact div_nonneg h (by norm_num)

theorem seededRandom_next_lt_one (r : SeededRandom) : (r.next).1 < 1 := by
  unfold SeededRandom.next
  dsimp only
  rw [div_lt_one (by norm_num)]
  have h1 : nextSeedJS r.seed < 2 ^ 31 := nextSeedJS_lt r.seed
  have h2 : nextSeedJS r.seed ≠ 2 ^ 31 - 1 := nextSeedJS_ne r.seed
  have h3 : nextSeedJS r.seed ≤ 2 ^ 31 - 2 := by omega
  calc (nextSeedJS r.seed : ℚ) ≤ ((2 ^ 31 - 2 : ℤ) : ℚ) := by exact_mod_cast h3
    _ < (2 : ℚ) ^ 31 - 1 := by norm_num

theorem floor_index_lt {v : ℚ} {n : ℕ} (h0 : 0 ≤ v) (h1 : v < 1) (hn : 0 < n) :
    (⌊v * (n : ℚ)⌋).toNat < n := by
  have hlt : v * (n : ℚ) < n := by
    have hn2 : (0 : ℚ) < n := by exact_mod_cast hn
    nlinarith
  have hfl : ⌊v * (n : ℚ)⌋ < (n : ℤ) := by
    apply Int.floor_lt.2
    push_cast
    exact hlt
  have hge : (0 : ℤ) ≤ ⌊v * (n : ℚ)⌋ := Int.le_floor.2 (by positivity)
  omega

theorem floor_index_nonneg {v : ℚ} {q : ℚ} (h0 : 0 ≤ v) (hq : 0 ≤ q) :
    (0 : ℤ) ≤ ⌊v * q⌋ := Int.le_floor.2 (by positivity)

/-- Claim C10: for every internal state of `SeededRandom` (any integer
constructor seed, hence also every state after any number of `next` calls),
`next` returns a value in the half-open interval `[0, 1)`: the masked
double-rounded update never reaches the divisor `0x7fffffff`.  Hence `pick`
on a non-empty array always returns an element of it, and `pickTwo` on an
array of length at least 2 returns entries at two distinct in-bounds
indices. -/
theorem c10_seededRandom_bounds :
    (∀ r : SeededRandom, 0 ≤ (r.next).1 ∧ (r.next).1 < 1) ∧
    (∀ (α : Type) (arr : List α) (r : SeededRandom), arr ≠ [] →
      ∃ x, (SeededRandom.pick arr r).1 = some x ∧ x ∈ arr) ∧
    (∀ (α : Type) (arr : List α) (r : SeededRandom), 2 ≤ arr.length →
      ∃ (i j : ℕ) (hi : i < arr.length) (hj : j < arr.length), i ≠ j ∧
        (SeededRandom.pickTwo arr r).1 =
          (some (arr.get ⟨i, hi⟩), some (arr.get ⟨j, hj⟩))) := by
  refine ⟨fun r => ⟨seededRandom_next_nonneg r, seededRandom_next_lt_one r⟩,
    ?_, ?_⟩
  · intro α arr r harr
    have hn : 0 < arr.length := List.length_pos.2 harr
    have hidx : (⌊(r.next).1 * (arr.length : ℚ)⌋).toNat < arr.length :=
      floor_index_lt (seededRandom_next_nonneg r) (seededRandom_next_lt_one r)
        hn
    refine ⟨arr.get ⟨_, hidx⟩, ?_, List.get_mem arr _ _⟩
    unfold SeededRandom.pick
    exact List.get?_eq_get hidx
  · intro α arr r hlen
    set v1 := (r.next).1 with hv1
    set r1 := (r.next).2 with hr1
    set v2 := (r1.next).1 with hv2
    set n := arr.length with hn
    have hn0 : 0 < n := by omega
    have hi : (⌊v1 * (n : ℚ)⌋).toNat < n :=
      floor_index_lt (seededRandom_next_nonneg r) (seededRandom_next_lt_one r)
        hn0
    set i : ℕ := (⌊v1 * (n : ℚ)⌋).toNat with hidef
    have hsub : ((n : ℚ) - 1) = ((n - 1 : ℕ) : ℚ) := by
      have : 1 ≤ n := by omega
      push_cast [this]
      ring
    have hj0lt : ⌊v2 * ((n : ℚ) - 1)⌋ < ((n - 1 : ℕ) : ℤ) := by
      rw [hsub]
      have := @floor_index_lt v2 (n - 1)
        (seededRandom_next_nonneg r1) (seededRandom_next_lt_one r1) (by omega)
      omega
    have hj0ge : (0 : ℤ) ≤ ⌊v2 * ((n : ℚ) - 1)⌋ := by
      apply floor_index_nonneg (seededRandom_next_nonneg r1)
      have : (1 : ℚ) ≤ (n : ℚ) := by exact_mod_cast (by omega : 1 ≤ n)
      linarith
    set j0 : ℤ := ⌊v2 * ((n : ℚ) - 1)⌋ with hj0def
    set j : ℤ := if j0 ≥ (i : ℤ) then j0 + 1 else j0 with hjdef
    have hjlt : j.toNat < n := by
      rw [hjdef]
      by_cases hc : j0 ≥ (i : ℤ)
      · rw [if_pos hc]; omega
      · rw [if_neg hc]; omega
    have hjne : j.toNat ≠ i := by
      rw [hjdef]
      by_cases hc : j0 ≥ (i : ℤ)
      · rw [if_pos hc]; omega
      · rw [if_neg hc]; omega
    refine ⟨i, j.toNat, hi, hjlt, fun he => hjne he.symm, ?_⟩
    show (SeededRandom.pickTwo arr r).1 = _
    unfold SeededRandom.pickTwo
    simp only [← hv1, ← hr1, ← hv2, ← hn, ← hidef, ← hj0def, ← hjdef]
    rw [List.get?_eq_get hi, List.get?_eq_get hjlt]

/-- Witness for C10: the theorem applied at seed 1 — `pick` of a concrete
triple returns one of its elements and `pickTwo` of a concrete pair returns
two distinct in-bounds entries. -/
theorem c10_witness :
    (∃ x, (SeededRandom.pick ["a", "b", "c"] ⟨1⟩).1 = some x ∧
       x ∈ ["a", "b", "c"]) ∧
    (∃ (i j : ℕ) (hi : i < (["a", "b"] : List String).length)
       (hj : j < (["a", "b"] : List String).length), i ≠ j ∧
        (SeededRandom.pickTwo ["a", "b"] ⟨1⟩).1 =
          (some ((["a", "b"] : List String).get ⟨i, hi⟩),
           some ((["a", "b"] : List String).get ⟨j, hj⟩))) :=
  ⟨c10_seededRandom_bounds.2.1 String ["a", "b", "c"] ⟨1⟩ (by simp),
   c10_seededRandom_bounds.2.2 String ["a", "b"] ⟨1⟩ (by simp)⟩

-- ═══════════════════════════════════════════════════════════════════════
-- C6: determinism of the SA optimizer
-- ═══════════════════════════════════════════════════════════════════════

/-- Claim C6: two runs of `optimizeSA` with identical seed, action list,
scored keys, finger configuration, movement configuration, penalty
configuration and SA options return identical layouts: with a provided
seed the computation is independent of the wall clock (`Date.now()`,
modelled by the `now` argument), and every other source of variation is a
function of the inputs. -/
theorem c6_optimizeSA_deterministic (accept : ℚ → ℚ → ℚ → Bool) (fuel : ℕ)
    (actions : List GameAction) (scoredKeys : List ScoredKey)
    (fingerConfig : FingerConfigMap) (movementConfig : MovementConfig)
    (penalties : PenaltyConfig) (options : SAOptions) (now1 now2 : ℤ)
    (s : ℤ) (h : options.seed = some s) :
    optimizeSA accept fuel actions scoredKeys fingerConfig movementConfig
      penalties options now1 =
    optimizeSA accept fuel actions scoredKeys fingerConfig movementConfig
      penalties options now2 := by
  unfold optimizeSA
  rw [h]
  rfl

/-- Witness for C6 at a concrete configuration with seed 42. -/
theorem c6_witness :
    optimizeSA (fun _ _ _ => true) 3
      [⟨"jump", 0, ActionType.MOVEMENT, 50, []⟩]
      [⟨"Space", 0, Finger.RightThumb, "Space", true, false⟩]
      []
      ⟨⟨"KeyW", "KeyS", [Finger.LeftMiddle], false⟩,
       ⟨"KeyD", "KeyA", [Finger.LeftRing], false⟩⟩
      DEFAULT_PENALTIES ⟨1000, 995/1000, 1/10, some 42⟩ 0 =
    optimizeSA (fun _ _ _ => true) 3
      [⟨"jump", 0, ActionType.MOVEMENT, 50, []⟩]
      [⟨"Space", 0, Finger.RightThumb, "Space", true, false⟩]
      []
      ⟨⟨"KeyW", "KeyS", [Finger.LeftMiddle], false⟩,
       ⟨"KeyD", "KeyA", [Finger.LeftRing], false⟩⟩
      DEFAULT_PENALTIES ⟨1000, 995/1000, 1/10, some 42⟩ 987654321 :=
  c6_optimizeSA_deterministic _ _ _ _ _ _ _ _ _ _ 42 rfl

-- ═══════════════════════════════════════════════════════════════════════
-- C9: the -1 sentinel of getDistance
-- ═══════════════════════════════════════════════════════════════════════

theorem getDistance_nonneg_of_found {sq : ℚ → ℚ}
    (hsq : ∀ x : ℚ, 0 ≤ x → 0 ≤ sq x) {k1 k2 : String} {key1 key2 : KeyDef}
    (h1 : alookup k1 optKeyMap = some key1)
    (h2 : alookup k2 optKeyMap = some key2) : 0 ≤ getDistance sq k1 k2 := by
  have he : getDistance sq k1 k2 = keyDistance sq key1 key2 := by
    unfold getDistance
    rw [h1, h2]
  rw [he]
  unfold keyDistance
  by_cases h : key1.code = key2.code
  · rw [if_pos h]
  · rw [if_neg h]
    unfold euclidean
    apply hsq
    have ha := mul_self_nonneg ((getKeyCenter key1).x - (getKeyCenter key2).x)
    have hb := mul_self_nonneg ((getKeyCenter key1).y - (getKeyCenter key2).y)
    linarith

/-- Soundness of a scorer result: it names a configured finger, uses that
finger's resting key as origin, and its distance was built either from the
zero resting-key case or from a distance lookup that did not return the
`-1` sentinel — i.e. the scorer filtered sentinel lookups out. -/
def scorerResultSound (sq : ℚ → ℚ) (keyCode : String) (fc : FingerConfigMap)
    (r : FingerResult) : Prop :=
  ∃ cfg : FingerConfig, (r.finger, cfg) ∈ fc ∧ r.originKey = cfg.restingKey ∧
    ((keyCode = cfg.restingKey ∧
        r.distance = (alookup keyCode cfg.keyPenalties).getD 0) ∨
     (getDistance sq keyCode cfg.restingKey ≠ -1 ∧
        r.distance = getDistance sq keyCode cfg.restingKey +
          (alookup keyCode cfg.keyPenalties).getD 0))

theorem scorerResultSound_mono {sq : ℚ → ℚ} {keyCode : String}
    {l l0 : FingerConfigMap} (hsub : ∀ p ∈ l, p ∈ l0) {r : FingerResult}
    (h : scorerResultSound sq keyCode l r) : scorerResultSound sq keyCode l0 r := by
  obtain ⟨cfg, hm, ho, hd⟩ := h
  exact ⟨cfg, hsub _ hm, ho, hd⟩

theorem exclusiveFingerSearch_sound {sq : ℚ → ℚ} {keyCode : String} :
    ∀ {l : FingerConfigMap} {r : FingerResult},
      exclusiveFingerSearch sq keyCode l = some r →
      scorerResultSound sq keyCode l r := by
  intro l
  induction l with
  | nil => intro r h; simp [exclusiveFingerSearch] at h
  | cons p rest ih =>
    intro r h
    obtain ⟨finger, config⟩ := p
    rw [exclusiveFingerSearch] at h
    by_cases hexc : keyCode ∈ config.exclusiveKeys
    · rw [if_pos hexc] at h
      by_cases hrest : keyCode = config.restingKey
      · rw [if_pos hrest] at h
        obtain rfl := Option.some.inj h
        exact ⟨config, List.mem_cons_self _ _, rfl, Or.inl ⟨hrest, rfl⟩⟩
      · rw [if_neg hrest] at h
        by_cases hd : getDistance sq keyCode config.restingKey = -1
        · rw [if_pos hd] at h
          exact scorerResultSound_mono
            (fun q hq => List.mem_cons_of_mem _ hq) (ih h)
        · rw [if_neg hd] at h
          obtain rfl := Option.some.inj h
          exact ⟨config, List.mem_cons_self _ _, rfl, Or.inr ⟨hd, rfl⟩⟩
    · rw [if_neg hexc] at h
      exact scorerResultSound_mono (fun q hq => List.mem_cons_of_mem _ hq) (ih h)

theorem normalFingerSearch_sound {sq : ℚ → ℚ} {keyCode : String}
    {l0 : FingerConfigMap} :
    ∀ {l : FingerConfigMap} {best : Option FingerResult} {r : FingerResult},
      (∀ p ∈ l, p ∈ l0) →
      (∀ r0, best = some r0 → scorerResultSound sq keyCode l0 r0) →
      normalFingerSearch sq keyCode best l = some r →
      scorerResultSound sq keyCode l0 r := by
  intro l
  induction l with
  | nil =>
    intro best r _ hbest h
    exact hbest r h
  | cons p rest ih =>
    intro best r hsub hbest h
    obtain ⟨finger, config⟩ := p
    have hsub2 : ∀ q ∈ rest, q ∈ l0 :=
      fun q hq => hsub q (List.mem_cons_of_mem _ hq)
    have hself : (finger, config) ∈ l0 := hsub _ (List.mem_cons_self _ _)
    rw [normalFingerSearch] at h
    by_cases hx : config.exclusiveKeys ≠ []
    · rw [if_pos hx] at h
      exact ih hsub2 hbest h
    · rw [if_neg hx] at h
      by_cases hrest : keyCode = config.restingKey
      · rw [if_pos hrest] at h
        obtain rfl := Option.some.inj h
        exact ⟨config, hself, rfl, Or.inl ⟨hrest, rfl⟩⟩
      · rw [if_neg hrest] at h
        by_cases hd : getDistance sq keyCode config.restingKey = -1
        · rw [if_pos hd] at h
          exact ih hsub2 hbest h
        · rw [if_neg hd] at h
          cases best with
          | none =>
            refine ih hsub2 (fun r0 h0 => ?_) h
            obtain rfl := Option.some.inj h0
            exact ⟨config, hself, rfl, Or.inr ⟨hd, rfl⟩⟩
          | some b =>
            dsimp only at h
            by_cases hlt : getDistance sq keyCode config.restingKey +
                (alookup keyCode config.keyPenalties).getD 0 < b.distance
            · rw [if_pos hlt] at h
              refine ih hsub2 (fun r0 h0 => ?_) h
              obtain rfl := Option.some.inj h0
              exact ⟨config, hself, rfl, Or.inr ⟨hd, rfl⟩⟩
            · rw [if_neg hlt] at h
              exact ih hsub2 hbest h

/-- Claim C9: `getDistance` returns the `-1` sentinel exactly when one of
the two key ids is unknown; any distance between two known keys is
nonnegative, so the sentinel is distinguishable from every genuine
distance; and every result of the key scorer (`findClosestRestingFinger`)
was built from a non-sentinel lookup (or the zero resting-key case) of a
configured finger — the scorer filters `-1` out before taking minima. -/
theorem c9_distance_sentinel (sq : ℚ → ℚ)
    (hsq : ∀ x : ℚ, 0 ≤ x → 0 ≤ sq x) :
    (∀ k1 k2 : String, getDistance sq k1 k2 = -1 ↔
      (alookup k1 optKeyMap = none ∨ alookup k2 optKeyMap = none)) ∧
    (∀ k1 k2 : String, getDistance sq k1 k2 = -1 ∨ 0 ≤ getDistance sq k1 k2) ∧
    (∀ (keyCode : String) (fc : FingerConfigMap) (r : FingerResult),
      findClosestRestingFinger sq keyCode fc = some r →
      scorerResultSound sq keyCode fc r) := by
  have hdist : ∀ k1 k2 : String, getDistance sq k1 k2 = -1 ∨
      0 ≤ getDistance sq k1 k2 := by
    intro k1 k2
    cases h1 : alookup k1 optKeyMap with
    | none => left; unfold getDistance; rw [h1]
    | some key1 =>
      cases h2 : alookup k2 optKeyMap with
      | none => left; unfold getDistance; rw [h1, h2]
      | some key2 => right; exact getDistance_nonneg_of_found hsq h1 h2
  refine ⟨?_, hdist, ?_⟩
  · intro k1 k2
    constructor
    · intro h
      by_contra hc
      push_neg at hc
      obtain ⟨hc1, hc2⟩ := hc
      obtain ⟨key1, h1⟩ := Option.ne_none_iff_exists'.1 hc1
      obtain ⟨key2, h2⟩ := Option.ne_none_iff_exists'.1 hc2
      have := getDistance_nonneg_of_found hsq h1 h2
      rw [h] at this
      norm_num at this
    · intro h
      unfold getDistance
      rcases h with h | h
      · rw [h]
      · rw [h]
        cases alookup k1 optKeyMap <;> rfl
  · intro keyCode fc r h
    unfold findClosestRestingFinger at h
    cases he : exclusiveFingerSearch sq keyCode fc with
    | some r2 =>
      rw [he] at h
      obtain rfl := Option.some.inj h
      exact exclusiveFingerSearch_sound he
    | none =>
      rw [he] at h
      exact normalFingerSearch_sound (fun p hp => hp) (fun r0 h0 => by
        simp at h0) h

/-- Witness for C9: the square root instantiated with the identity (which
is nonnegative on nonnegative inputs) at two concrete key ids. -/
theorem c9_witness :
    getDistance (fun x => x) "KeyW" "KeyQ" = -1 ∨
      0 ≤ getDistance (fun x => x) "KeyW" "KeyQ" :=
  (c9_distance_sentinel (fun x => x) (fun _ h => h)).2.1 "KeyW" "KeyQ"

-- ═══════════════════════════════════════════════════════════════════════
-- C7: exclusive-key short circuit of the key scorer
-- ═══════════════════════════════════════════════════════════════════════

/-- The constructor's key map evaluated: key codes are unique in the two
layout tables, so the `Map` construction is the plain association list. -/
theorem optKeyMap_val :
    optKeyMap = (ANSI_LAYOUT ++ MOUSE_LAYOUT).map (fun k => (k.code, k)) := by
  simp [optKeyMap, buildKeyMap, mapFromList, mapSet, ANSI_LAYOUT, MOUSE_LAYOUT]

/-- Claim C7 (amended): if some configured finger's exclusive-key list
contains the key, the scorer short-circuits on the FIRST such finger in
configuration order, and only provided the cost lookup succeeds (the key
is the finger's resting key, or the resting-key distance is not the `-1`
sentinel): the result is that finger with cost = per-key penalty override
(default 0) plus (0 if the key is the resting key, else the distance from
the resting key).  When the lookup fails the search falls through to the
other fingers instead of returning, so the original unconditional claim
is false. -/
theorem c7_exclusive_scoring (sq : ℚ → ℚ) (keyCode : String)
    (pre post : List (Finger × FingerConfig)) (f0 : Finger)
    (cfg0 : FingerConfig)
    (hpre : ∀ p ∈ pre, keyCode ∉ p.2.exclusiveKeys)
    (hexc : keyCode ∈ cfg0.exclusiveKeys)
    (hok : keyCode = cfg0.restingKey ∨
      getDistance sq keyCode cfg0.restingKey ≠ -1) :
    findClosestRestingFinger sq keyCode (pre ++ (f0, cfg0) :: post) =
      some ⟨f0, cfg0.restingKey,
        (alookup keyCode cfg0.keyPenalties).getD 0 +
          (if keyCode = cfg0.restingKey then 0
           else getDistance sq keyCode cfg0.restingKey)⟩ := by
  have hmain : exclusiveFingerSearch sq keyCode (pre ++ (f0, cfg0) :: post) =
      some ⟨f0, cfg0.restingKey,
        (alookup keyCode cfg0.keyPenalties).getD 0 +
          (if keyCode = cfg0.restingKey then 0
           else getDistance sq keyCode cfg0.restingKey)⟩ := by
    induction pre with
    | nil =>
      rw [List.nil_append, exclusiveFingerSearch, if_pos hexc]
      by_cases hr : keyCode = cfg0.restingKey
      · rw [if_pos hr, if_pos hr, add_zero]
      · rw [if_neg hr, if_neg hr]
        have hd : getDistance sq keyCode cfg0.restingKey ≠ -1 := by
          rcases hok with h | h
          · exact absurd h hr
          · exact h
        rw [if_neg hd, add_comm]
    | cons p rest ih =>
      rw [List.cons_append, exclusiveFingerSearch]
      have hp : keyCode ∉ p.2.exclusiveKeys := hpre p (List.mem_cons_self _ _)
      obtain ⟨f1, c1⟩ := p
      rw [if_neg hp]
      exact ih (fun q hq => hpre q (List.mem_cons_of_mem _ hq))
  unfold findClosestRestingFinger
  rw [hmain]

/-- Claim C7 counterexample: the finger `RightRing` holds `KeyQ` as an
exclusive key, but its resting key is unknown to the key map, so the
distance lookup returns the sentinel and the scorer falls through to the
normal search and returns a DIFFERENT finger (`RightIndex`) instead of
the exclusive owner — the exclusive short circuit is not unconditional. -/
theorem c7_counterexample :
    "KeyQ" ∈ (FingerConfig.mk "Nope" 4 ["KeyQ"] []).exclusiveKeys ∧
    (findClosestRestingFinger (fun x => x) "KeyQ"
      [(Finger.RightRing, FingerConfig.mk "Nope" 4 ["KeyQ"] []),
       (Finger.RightIndex, FingerConfig.mk "KeyW" 12 [] [])]).map
        FingerResult.finger = some Finger.RightIndex ∧
    Finger.RightIndex ≠ Finger.RightRing := by
  refine ⟨by simp, ?_, by simp⟩
  have hnope : alookup "Nope" optKeyMap = (none : Option KeyDef) := by
    rw [optKeyMap_val]
    simp [ANSI_LAYOUT, MOUSE_LAYOUT, alookup]
  have hq : alookup "KeyQ" optKeyMap =
      some { code := "KeyQ", x := 6, y := 4, width := 4 } := by
    rw [optKeyMap_val]
    simp [ANSI_LAYOUT, MOUSE_LAYOUT, alookup]
  have hw : alookup "KeyW" optKeyMap =
      some { code := "KeyW", x := 10, y := 4, width := 4 } := by
    rw [optKeyMap_val]
    simp [ANSI_LAYOUT, MOUSE_LAYOUT, alookup]
  have hd1 : getDistance (fun x => x) "KeyQ" "Nope" = -1 := by
    unfold getDistance
    rw [hq, hnope]
  have hd2 : getDistance (fun x => x) "KeyQ" "KeyW" = 16 := by
    unfold getDistance
    rw [hq, hw]
    simp only [keyDistance]
    rw [if_neg (by decide)]
    norm_num [euclidean, getKeyCenter, DEFAULT_KEY_HEIGHT]
  unfold findClosestRestingFinger
  rw [show exclusiveFingerSearch (fun x => x) "KeyQ"
      [(Finger.RightRing, FingerConfig.mk "Nope" 4 ["KeyQ"] []),
       (Finger.RightIndex, FingerConfig.mk "KeyW" 12 [] [])] =
      (none : Option FingerResult) by
    rw [exclusiveFingerSearch, if_pos (by simp)]
    rw [if_neg (by simp), hd1, if_pos rfl]
    rw [exclusiveFingerSearch, if_neg (by simp), exclusiveFingerSearch]]
  rw [show normalFingerSearch (fun x => x) "KeyQ" none
      [(Finger.RightRing, FingerConfig.mk "Nope" 4 ["KeyQ"] []),
       (Finger.RightIndex, FingerConfig.mk "KeyW" 12 [] [])] =
      some ⟨Finger.RightIndex, "KeyW", 16 + 0⟩ by
    rw [normalFingerSearch, if_pos (by simp)]
    rw [normalFingerSearch, if_neg (by simp), if_neg (by decide), hd2]
    rw [if_neg (by norm_num)]
    dsimp only
    rw [normalFingerSearch]
    simp [alookup]]
  rfl

/-- Witness for the amended C7: the Mouse5 exclusive key of the right ring
finger from the YTGH preset — penalty override 12 plus distance 16 from
the Mouse4 resting key. -/
theorem c7_witness :
    findClosestRestingFinger (fun x => x) "Mouse5"
      [(Finger.RightRing,
        FingerConfig.mk "Mouse4" 4 ["Mouse4", "Mouse5"]
          [("Mouse4", 6), ("Mouse5", 12)])] =
      some ⟨Finger.RightRing, "Mouse4",
        (alookup "Mouse5" [("Mouse4", (6 : ℚ)), ("Mouse5", 12)]).getD 0 +
          (if ("Mouse5" : String) = "Mouse4" then 0
           else getDistance (fun x => x) "Mouse5" "Mouse4")⟩ := by
  have h := c7_exclusive_scoring (fun x => x) "Mouse5" [] []
    Finger.RightRing
    (FingerConfig.mk "Mouse4" 4 ["Mouse4", "Mouse5"]
      [("Mouse4", 6), ("Mouse5", 12)])
    (by intro p hp; simp at hp) (by simp)
    (Or.inr (by
      have h4 : alookup "Mouse4" optKeyMap =
          some { code := "Mouse4", x := 66, y := 8, width := 4 } := by
        rw [optKeyMap_val]
        simp [ANSI_LAYOUT, MOUSE_LAYOUT, alookup]
      have h5 : alookup "Mouse5" optKeyMap =
          some { code := "Mouse5", x := 66, y := 12, width := 4 } := by
        rw [optKeyMap_val]
        simp [ANSI_LAYOUT, MOUSE_LAYOUT, alookup]
      unfold getDistance
      rw [h4, h5]
      simp only [keyDistance]
      rw [if_neg (by decide)]
      norm_num [euclidean, getKeyCenter, DEFAULT_KEY_HEIGHT]))
  exact h

-- ═══════════════════════════════════════════════════════════════════════
-- C8: the x-sorted sweep equals the naive radius scan
-- ═══════════════════════════════════════════════════════════════════════

theorem naive_cons_skip {sq : ℚ → ℚ} {center : Point} {maxD : ℚ}
    {ex : Option String} {k : KeyDef} {rest : List KeyDef}
    (h : ¬(ex ≠ some k.code ∧ euclidean sq center (getKeyCenter k) ≤ maxD)) :
    naiveKeysWithinRadius sq center maxD ex (k :: rest) =
      naiveKeysWithinRadius sq center maxD ex rest := by
  unfold naiveKeysWithinRadius
  rw [List.filter_cons, if_neg (by simpa using h)]

theorem naive_cons_keep {sq : ℚ → ℚ} {center : Point} {maxD : ℚ}
    {ex : Option String} {k : KeyDef} {rest : List KeyDef}
    (h : ex ≠ some k.code ∧ euclidean sq center (getKeyCenter k) ≤ maxD) :
    naiveKeysWithinRadius sq center maxD ex (k :: rest) =
      (k.code, euclidean sq center (getKeyCenter k)) ::
        naiveKeysWithinRadius sq center maxD ex rest := by
  unfold naiveKeysWithinRadius
  rw [List.filter_cons, if_pos (by simpa using h)]
  rfl

theorem sweep_eq_naive_sorted (sq : ℚ → ℚ) (center : Point) (maxD : ℚ)
    (ex : Option String)
    (hx : ∀ a b : ℚ, |a| ≤ sq (a * a + b * b))
    (hy : ∀ a b : ℚ, |b| ≤ sq (a * a + b * b)) :
    ∀ l : List KeyDef,
      l.Pairwise (fun a b => (getKeyCenter a).x ≤ (getKeyCenter b).x) →
      sweepWithinRadius sq center maxD ex l =
        naiveKeysWithinRadius sq center maxD ex l := by
  intro l
  induction l with
  | nil => intro _; rfl
  | cons k rest ih =>
    intro hp
    obtain ⟨hk, hrest⟩ := List.pairwise_cons.1 hp
    have hd_x : |center.x - (getKeyCenter k).x| ≤
        euclidean sq center (getKeyCenter k) := hx _ _
    have hd_y : |center.y - (getKeyCenter k).y| ≤
        euclidean sq center (getKeyCenter k) := hy _ _
    rw [sweepWithinRadius]
    by_cases h1 : (getKeyCenter k).x < center.x - maxD
    · rw [if_pos h1, ih hrest, naive_cons_skip]
      rintro ⟨-, hle⟩
      have : center.x - (getKeyCenter k).x ≤ |center.x - (getKeyCenter k).x| :=
        le_abs_self _
      linarith
    · rw [if_neg h1]
      by_cases h2 : (getKeyCenter k).x > center.x + maxD
      · rw [if_pos h2]
        symm
        unfold naiveKeysWithinRadius
        rw [List.map_eq_nil_iff]
        rw [List.filter_eq_nil_iff]
        intro a ha
        have hax : (getKeyCenter k).x ≤ (getKeyCenter a).x := by
          rcases List.mem_cons.1 ha with rfl | ha2
          · exact le_refl _
          · exact hk a ha2
        have hda : |center.x - (getKeyCenter a).x| ≤
            euclidean sq center (getKeyCenter a) := hx _ _
        have habs : (getKeyCenter a).x - center.x ≤
            |center.x - (getKeyCenter a).x| := by
          rw [abs_sub_comm]
          exact le_abs_self _
        simp only [decide_eq_true_eq, not_and, not_le]
        intro _
        linarith
      · rw [if_neg h2]
        by_cases h3 : |(getKeyCenter k).y - center.y| > maxD
        · rw [if_pos h3, ih hrest, naive_cons_skip]
          rintro ⟨-, hle⟩
          have : |center.y - (getKeyCenter k).y| =
              |(getKeyCenter k).y - center.y| := abs_sub_comm _ _
          linarith
        · rw [if_neg h3]
          by_cases h4 : ex = some k.code
          · rw [if_pos h4, ih hrest, naive_cons_skip]
            rintro ⟨hne, -⟩
            exact hne h4
          · rw [if_neg h4]
            by_cases h5 : euclidean sq center (getKeyCenter k) > maxD
            · rw [if_pos h5, ih hrest, naive_cons_skip]
              rintro ⟨-, hle⟩
              linarith
            · rw [if_neg h5, ih hrest, naive_cons_keep ⟨h4, not_lt.1 h5⟩]

/-- Claim C8: for every key list, query center and radius, the x-window
sweep of `findKeysWithinRadius` run over the x-sorted key list produces
exactly the same multiset of (key, distance) results as the naive linear
scan that keeps every non-excluded key within the radius.  The hypotheses
on the abstract square root are the two real-square-root facts the window
tests rely on: a Euclidean distance bounds both coordinate offsets. -/
theorem c8_sweep_refines_naive (sq : ℚ → ℚ) (center : Point) (maxD : ℚ)
    (ex : Option String) (keys : List KeyDef)
    (hx : ∀ a b : ℚ, |a| ≤ sq (a * a + b * b))
    (hy : ∀ a b : ℚ, |b| ≤ sq (a * a + b * b)) :
    (sweepWithinRadius sq center maxD ex (sortKeysByX keys)).Perm
      (naiveKeysWithinRadius sq center maxD ex keys) := by
  have hsorted : (sortKeysByX keys).Pairwise
      (fun a b => (getKeyCenter a).x ≤ (getKeyCenter b).x) := by
    apply stableSort_pairwise
    · intro a b h
      exact of_decide_eq_true h
    · intro a b h
      apply decide_eq_true
      have := of_decide_eq_false h
      linarith [lt_of_not_le this]
    · intro a b c h1 h2
      exact le_trans h1 h2
  rw [sweep_eq_naive_sorted sq center maxD ex hx hy _ hsorted]
  unfold naiveKeysWithinRadius
  exact ((stableSort_perm _ keys).filter _).map _

/-- Witness for C8: the square root instantiated with `x + 1` (which
dominates both coordinate offsets of its squared argument) on a concrete
three-key row. -/
theorem c8_witness :
    (sweepWithinRadius (fun x => x + 1) ⟨2, 2⟩ 6 none
      (sortKeysByX [⟨"A", 0, 0, 4, none⟩, ⟨"B", 4, 0, 4, none⟩,
        ⟨"C", 40, 0, 4, none⟩])).Perm
      (naiveKeysWithinRadius (fun x => x + 1) ⟨2, 2⟩ 6 none
        [⟨"A", 0, 0, 4, none⟩, ⟨"B", 4, 0, 4, none⟩, ⟨"C", 40, 0, 4, none⟩]) := by
  have hx : ∀ a b : ℚ, |a| ≤ (fun x => x + 1) (a * a + b * b) := by
    intro a b
    show |a| ≤ a * a + b * b + 1
    nlinarith [sq_nonneg (|a| - 1), sq_abs a, abs_nonneg a, sq_nonneg b]
  have hy : ∀ a b : ℚ, |b| ≤ (fun x => x + 1) (a * a + b * b) := by
    intro a b
    show |b| ≤ a * a + b * b + 1
    nlinarith [sq_nonneg (|b| - 1), sq_abs b, abs_nonneg b, sq_nonneg a]
  exact c8_sweep_refines_naive (fun x => x + 1) ⟨2, 2⟩ 6 none
    [⟨"A", 0, 0, 4, none⟩, ⟨"B", 4, 0, 4, none⟩, ⟨"C", 40, 0, 4, none⟩] hx hy

-- ═══════════════════════════════════════════════════════════════════════
-- C5: hard-penalty dominance of the friction function
-- ═══════════════════════════════════════════════════════════════════════

theorem frictionEntry_nonneg (layout : Layout) (ctx : FrictionContext)
    (p : PenaltyConfig) (actionMap : List (String × GameAction))
    (exclusiveFingers : List Finger) (entry : String × String)
    (hp1 : 0 ≤ p.distanceWeight) (hp2 : 0 ≤ p.frequencyWeight)
    (hp3 : 0 ≤ p.concurrencyPenalty) (hp4 : 0 ≤ p.exclusiveViolation)
    (hp5 : 0 ≤ p.unreachablePenalty)
    (hd : ∀ kv ∈ ctx.keyToDistance, 0 ≤ kv.2)
    (hf : ∀ kv ∈ actionMap, 0 ≤ kv.2.useFrequency) :
    0 ≤ frictionEntry layout ctx p actionMap exclusiveFingers entry := by
  unfold frictionEntry
  cases hact : alookup entry.1 actionMap with
  | none => norm_num
  | some action =>
    have hfreq : 0 ≤ action.useFrequency := hf _ (alookup_mem hact)
    have hdist : 0 ≤ (alookup entry.2 ctx.keyToDistance).getD 100 := by
      cases hz : alookup entry.2 ctx.keyToDistance with
      | none => norm_num
      | some d =>
        have := hd _ (alookup_mem hz)
        simpa using this
    dsimp only
    refine add_nonneg (add_nonneg (add_nonneg (add_nonneg (add_nonneg
      (add_nonneg ?_ ?_) ?_) ?_) ?_) ?_) ?_
    · split
      · split
        · split <;> norm_num
        · norm_num
      · norm_num
    · split <;> norm_num
    · split
      · norm_num
      · refine add_nonneg ?_ ?_
        · split
          · split <;> norm_num
          · norm_num
        · exact mul_nonneg (Nat.cast_nonneg _) (by norm_num)
    · exact add_nonneg (mul_nonneg (mul_nonneg hdist hfreq) hp2)
        (mul_nonneg hdist hp1)
    · split
      · norm_num
      · split <;> [exact hp4; norm_num]
    · split
      · norm_num
      · split
        · split <;> [exact hp5; norm_num]
        · norm_num
    · apply List.sum_nonneg
      intro x hx
      obtain ⟨otherName, _, hfx⟩ := List.mem_map.1 hx
      subst hfx
      split
      · norm_num
      · split
        · norm_num
        · split
          · split <;> [exact hp3; norm_num]
          · norm_num

theorem frictionEntry_violation_ge (layout : Layout) (ctx : FrictionContext)
    (p : PenaltyConfig) (actionMap : List (String × GameAction))
    (exclusiveFingers : List Finger) (n k : String) (a : GameAction)
    (ck : String)
    (hp1 : 0 ≤ p.distanceWeight) (hp2 : 0 ≤ p.frequencyWeight)
    (hp3 : 0 ≤ p.concurrencyPenalty) (hp4 : 0 ≤ p.exclusiveViolation)
    (hp5 : 0 ≤ p.unreachablePenalty)
    (hd : ∀ kv ∈ ctx.keyToDistance, 0 ≤ kv.2)
    (hf : ∀ kv ∈ actionMap, 0 ≤ kv.2.useFrequency)
    (hact : alookup n actionMap = some a)
    (hdir : a.type = ActionType.DIRECTIONAL)
    (hck : alookup n ctx.movementActionToKey = some ck)
    (hck2 : ck ≠ "") (hne : k ≠ ck) :
    1000000 ≤ frictionEntry layout ctx p actionMap exclusiveFingers (n, k) := by
  unfold frictionEntry
  rw [hact]
  dsimp only
  have hfreq : 0 ≤ a.useFrequency := hf _ (alookup_mem hact)
  have hdist : 0 ≤ (alookup k ctx.keyToDistance).getD 100 := by
    cases hz : alookup k ctx.keyToDistance with
    | none => norm_num
    | some d =>
      have := hd _ (alookup_mem hz)
      simpa using this
  have h1 : (if a.type = ActionType.DIRECTIONAL then
      (match alookup n ctx.movementActionToKey with
       | some correctKey =>
         if correctKey ≠ "" ∧ k ≠ correctKey then (1000000 : ℚ) else 0
       | none => 0)
     else 0) = 1000000 := by
    rw [if_pos hdir, hck]
    dsimp only
    rw [if_pos ⟨hck2, hne⟩]
  have h2 : (0:ℚ) ≤ (if a.type ≠ ActionType.DIRECTIONAL ∧
      k ∈ ctx.movementKeySet then 500000 else 0) := by
    split <;> norm_num
  have h3 : (0:ℚ) ≤ (match alookup k ctx.keyToFinger with
     | none => 0
     | some finger =>
       (match alookup finger ctx.fingerExclusiveKeys with
        | some fingerExclusive =>
          if k ∉ fingerExclusive then (200000:ℚ) else 0
        | none => 0) +
       ((ctx.fingerExclusiveKeys.filter (fun q =>
           decide (q.1 ≠ finger) && decide (k ∈ q.2))).length : ℚ) * 200000) := by
    split
    · norm_num
    · refine add_nonneg ?_ (mul_nonneg (Nat.cast_nonneg _) (by norm_num))
      split
      · split <;> norm_num
      · norm_num
  have h4 : (0:ℚ) ≤ (alookup k ctx.keyToDistance).getD 100 * a.useFrequency *
      p.frequencyWeight + (alookup k ctx.keyToDistance).getD 100 *
      p.distanceWeight :=
    add_nonneg (mul_nonneg (mul_nonneg hdist hfreq) hp2) (mul_nonneg hdist hp1)
  have h5 : (0:ℚ) ≤ (match alookup k ctx.keyToFinger with
     | none => 0
     | some finger =>
       if finger ∈ exclusiveFingers ∧ a.type ≠ ActionType.DIRECTIONAL
       then p.exclusiveViolation else 0) := by
    split
    · norm_num
    · split <;> [exact hp4; norm_num]
  have h6 : (0:ℚ) ≤ (match alookup k ctx.keyToFinger with
     | none => 0
     | some finger =>
       match alookup finger ctx.fingerConfig with
       | some config =>
         if (alookup k ctx.keyToDistance).getD 100 > config.reach
         then p.unreachablePenalty else 0
       | none => 0) := by
    split
    · norm_num
    · split
      · split <;> [exact hp5; norm_num]
      · norm_num
  have h7 : (0:ℚ) ≤ (a.concurrentWith.map (fun otherName =>
       match alookup otherName layout with
       | none => 0
       | some otherKey =>
         if otherKey = "" then 0
         else
           match alookup k ctx.keyToFinger, alookup otherKey ctx.keyToFinger with
           | some finger, some otherFinger =>
             if finger = otherFinger then p.concurrencyPenalty else 0
           | _, _ => 0)).sum := by
    apply List.sum_nonneg
    intro x hx
    obtain ⟨otherName, _, hfx⟩ := List.mem_map.1 hx
    subst hfx
    split
    · norm_num
    · split
      · norm_num
      · split
        · split <;> [exact hp3; norm_num]
        · norm_num
  rw [h1]
  linarith

theorem calculateLoadImbalance_nonneg (layout : Layout) (ctx : FrictionContext)
    (actionMap : List (String × GameAction)) :
    0 ≤ calculateLoadImbalance layout ctx actionMap := by
  unfold calculateLoadImbalance
  dsimp only
  split
  · norm_num
  · have := listMinQ_le_listMaxQ (valsOf (fingerLoadsOf layout ctx actionMap))
    linarith

/-- Claim C5 (amended): the friction of a layout that misplaces some
`DIRECTIONAL` action (off its nonempty configured axis key) is at least
the hard directional penalty 1,000,000, provided all tunable penalty
weights, key distances and use-frequencies are nonnegative; hence it
strictly exceeds the friction of any layout whose total friction is below
1,000,000 — in particular any rule-satisfying layout whose soft terms
stay below the hard-penalty scale.  The dominance is NOT independent of
the other terms for arbitrary penalty configurations (see the
counterexample). -/
theorem c5_friction_dominance (ctx : FrictionContext) (p : PenaltyConfig)
    (L1 L2 : Layout)
    (hp1 : 0 ≤ p.distanceWeight) (hp2 : 0 ≤ p.frequencyWeight)
    (hp3 : 0 ≤ p.concurrencyPenalty) (hp4 : 0 ≤ p.exclusiveViolation)
    (hp5 : 0 ≤ p.unreachablePenalty)
    (hd : ∀ kv ∈ ctx.keyToDistance, 0 ≤ kv.2)
    (hf : ∀ a ∈ ctx.actions, 0 ≤ a.useFrequency)
    (n k : String) (a : GameAction) (ck : String)
    (hmem : (n, k) ∈ L1)
    (ha : alookup n (mapFromList (ctx.actions.map (fun x => (x.name, x)))) =
      some a)
    (hdir : a.type = ActionType.DIRECTIONAL)
    (hck : alookup n ctx.movementActionToKey = some ck)
    (hck2 : ck ≠ "") (hne : k ≠ ck)
    (hL2 : calculateFriction L2 ctx p < 1000000) :
    calculateFriction L2 ctx p < calculateFriction L1 ctx p := by
  have hf2 : ∀ kv ∈ mapFromList (ctx.actions.map (fun x => (x.name, x))),
      0 ≤ kv.2.useFrequency := by
    intro kv hkv
    obtain ⟨x, hx, hfx⟩ := List.mem_map.1 (mapFromList_entry_mem hkv)
    have := hf x hx
    rw [← hfx]
    exact this
  have hge : 1000000 ≤ calculateFriction L1 ctx p := by
    unfold calculateFriction
    dsimp only
    have hviol := frictionEntry_violation_ge L1 ctx p
      (mapFromList (ctx.actions.map (fun x => (x.name, x))))
      (buildExclusiveFingerSet ctx.movementConfig) n k a ck
      hp1 hp2 hp3 hp4 hp5 hd hf2 ha hdir hck hck2 hne
    have hsingle : frictionEntry L1 ctx p
        (mapFromList (ctx.actions.map (fun x => (x.name, x))))
        (buildExclusiveFingerSet ctx.movementConfig) (n, k) ≤
        (L1.map (frictionEntry L1 ctx p
          (mapFromList (ctx.actions.map (fun x => (x.name, x))))
          (buildExclusiveFingerSet ctx.movementConfig))).sum := by
      apply List.single_le_sum
      · intro x hx
        obtain ⟨entry, _, hfx⟩ := List.mem_map.1 hx
        rw [← hfx]
        exact frictionEntry_nonneg L1 ctx p _ _ entry hp1 hp2 hp3 hp4 hp5 hd hf2
      · exact List.mem_map_of_mem _ hmem
    have himb := calculateLoadImbalance_nonneg L1 ctx
      (mapFromList (ctx.actions.map (fun x => (x.name, x))))
    linarith
  linarith

/-- Fixture for the C5 counterexample: one directional action whose axis
key sits at a huge scored distance, so the satisfying layout pays more in
(weighted) distance than the hard directional penalty. -/
def c5Actions : List GameAction := [⟨"forward", 0, ActionType.DIRECTIONAL, 0, []⟩]

def c5Scored : List ScoredKey :=
  [⟨"KeyW", 2000000, Finger.RightIndex, "KeyE", false, true⟩,
   ⟨"KeyA", 0, Finger.RightIndex, "KeyE", true, true⟩]

def c5FC : FingerConfigMap := [(Finger.RightIndex, ⟨"KeyE", 100, [], []⟩)]

def c5MC : MovementConfig :=
  ⟨⟨"KeyW", "KeyS", [Finger.RightIndex], false⟩,
   ⟨"KeyD", "KeyA", [Finger.RightIndex], false⟩⟩

def c5Ctx : FrictionContext := buildFrictionContext c5Actions c5Scored c5FC c5MC

/-- Claim C5 counterexample: with the default penalty configuration, the
layout placing `forward` on the wrong key `KeyA` scores 1,000,000 while
the layout placing every directional action on its correct axis key
scores 2,050,000 — strictly MORE, because the distance term of the
correct key dominates.  So a violating layout can score better than a
satisfying one; dominance is not independent of the other terms. -/
theorem c5_counterexample :
    alookup "forward" c5Ctx.movementActionToKey = some "KeyW" ∧
    "KeyA" ≠ "KeyW" ∧
    (∀ e ∈ ([("forward", "KeyW")] : Layout),
      alookup e.1 c5Ctx.movementActionToKey = some e.2) ∧
    calculateFriction [("forward", "KeyA")] c5Ctx DEFAULT_PENALTIES = 1000000 ∧
    calculateFriction [("forward", "KeyW")] c5Ctx DEFAULT_PENALTIES = 2050000 ∧
    calculateFriction [("forward", "KeyA")] c5Ctx DEFAULT_PENALTIES <
      calculateFriction [("forward", "KeyW")] c5Ctx DEFAULT_PENALTIES := by
  have hmk : c5Ctx.movementActionToKey = [("forward", "KeyW")] := by
    show buildMovementActionMap c5Actions c5MC = _
    simp [buildMovementActionMap, c5Actions, c5MC, strIncludes, mapSet]
  have h1 : calculateFriction [("forward", "KeyA")] c5Ctx DEFAULT_PENALTIES =
      1000000 := by
    simp [calculateFriction, frictionEntry, calculateLoadImbalance,
      fingerLoadsOf, c5Ctx, buildFrictionContext, c5Actions, c5Scored, c5FC,
      c5MC, buildMovementActionMap, buildMovementKeySet,
      buildExclusiveFingerSet, strIncludes, mapSet, mapFromList, alookup,
      valsOf, listMaxQ, listMinQ, DEFAULT_PENALTIES]
  have h2 : calculateFriction [("forward", "KeyW")] c5Ctx DEFAULT_PENALTIES =
      2050000 := by
    simp [calculateFriction, frictionEntry, calculateLoadImbalance,
      fingerLoadsOf, c5Ctx, buildFrictionContext, c5Actions, c5Scored, c5FC,
      c5MC, buildMovementActionMap, buildMovementKeySet,
      buildExclusiveFingerSet, strIncludes, mapSet, mapFromList, alookup,
      valsOf, listMaxQ, listMinQ, DEFAULT_PENALTIES]
    norm_num
  refine ⟨by rw [hmk]; simp [alookup], by decide, ?_, h1, h2, ?_⟩
  · intro e he
    rw [hmk]
    rcases List.mem_singleton.1 he with rfl
    simp [alookup]
  · rw [h1, h2]
    norm_num

/-- Fixture for the C5 witness: both keys at distance 0, so the correct
layout's friction is far below the hard penalty. -/
def c5wScored : List ScoredKey :=
  [⟨"KeyW", 0, Finger.RightIndex, "KeyE", true, true⟩,
   ⟨"KeyA", 0, Finger.RightIndex, "KeyE", true, true⟩]

def c5wCtx : FrictionContext := buildFrictionContext c5Actions c5wScored c5FC c5MC

/-- Witness for the amended C5: with default penalties and zero-distance
keys, the layout misplacing `forward` scores strictly above the correct
one. -/
theorem c5_witness :
    calculateFriction [("forward", "KeyW")] c5wCtx DEFAULT_PENALTIES <
      calculateFriction [("forward", "KeyA")] c5wCtx DEFAULT_PENALTIES := by
  have hL2 : calculateFriction [("forward", "KeyW")] c5wCtx DEFAULT_PENALTIES <
      1000000 := by
    have : calculateFriction [("forward", "KeyW")] c5wCtx DEFAULT_PENALTIES
        = 0 := by
      simp [calculateFriction, frictionEntry, calculateLoadImbalance,
        fingerLoadsOf, c5wCtx, buildFrictionContext, c5Actions, c5wScored,
        c5FC, c5MC, buildMovementActionMap, buildMovementKeySet,
        buildExclusiveFingerSet, strIncludes, mapSet, mapFromList, alookup,
        valsOf, listMaxQ, listMinQ, DEFAULT_PENALTIES]
    rw [this]
    norm_num
  exact c5_friction_dominance c5wCtx DEFAULT_PENALTIES
    [("forward", "KeyA")] [("forward", "KeyW")]
    (by norm_num [DEFAULT_PENALTIES]) (by norm_num [DEFAULT_PENALTIES])
    (by norm_num [DEFAULT_PENALTIES]) (by norm_num [DEFAULT_PENALTIES])
    (by norm_num [DEFAULT_PENALTIES])
    (by
      intro kv hkv
      have : c5wCtx.keyToDistance = [("KeyW", 0), ("KeyA", 0)] := by
        show (c5wScored.foldl (fun m sk => mapSet m sk.code sk.totalScore) []) = _
        simp [c5wScored, mapSet]
      rw [this] at hkv
      rcases List.mem_cons.1 hkv with rfl | hkv2
      · norm_num
      · rcases List.mem_singleton.1 hkv2 with rfl
        norm_num)
    (by
      intro a ha
      have : c5wCtx.actions = c5Actions := rfl
      rw [this] at ha
      rcases List.mem_singleton.1 (by simpa [c5Actions] using ha) with rfl
      norm_num)
    "forward" "KeyA" ⟨"forward", 0, ActionType.DIRECTIONAL, 0, []⟩ "KeyW"
    (by simp)
    (by
      show alookup "forward"
        (mapFromList (c5Actions.map (fun x => (x.name, x)))) = _
      simp [c5Actions, mapFromList, mapSet, alookup])
    rfl
    (by
      show alookup "forward" (buildMovementActionMap c5Actions c5MC) = _
      simp [buildMovementActionMap, c5Actions, c5MC, strIncludes, mapSet,
        alookup])
    (by decide) (by decide) hL2

-- ═══════════════════════════════════════════════════════════════════════
-- Allocator lemmas (C1, C2, C3)
-- ═══════════════════════════════════════════════════════════════════════

theorem lockedKeyOf_mem_vals {lockedBinds : LockedBinds} {n k : String}
    (h : lockedKeyOf lockedBinds n = some k) :
    k ∈ lockedBinds.map Prod.snd := by
  unfold lockedKeyOf at h
  cases ha : alookup n lockedBinds with
  | none => rw [ha] at h; simp at h
  | some k2 =>
    rw [ha] at h
    dsimp only at h
    by_cases hk : k2 = ""
    · rw [if_pos hk] at h; simp at h
    · rw [if_neg hk] at h
      obtain rfl := Option.some.inj h
      exact List.mem_map_of_mem Prod.snd (alookup_mem ha)

theorem findAxis_keys_mem_movementKeys {a : GameAction} {mc : MovementConfig}
    {axis : AxisConfig} (h : findAxisForAction a mc = some axis) :
    axis.positiveKey ∈ buildMovementKeySet mc ∧
      axis.negativeKey ∈ buildMovementKeySet mc := by
  unfold findAxisForAction at h
  unfold buildMovementKeySet
  by_cases h1 : (strIncludes a.name "forward" || strIncludes a.name "backward") = true
  · rw [if_pos h1] at h
    obtain rfl := Option.some.inj h
    exact ⟨by simp, by simp⟩
  · rw [if_neg h1] at h
    by_cases h2 : (strIncludes a.name "left" || strIncludes a.name "right") = true
    · rw [if_pos h2] at h
      obtain rfl := Option.some.inj h
      exact ⟨by simp, by simp⟩
    · rw [if_neg h2] at h
      exact absurd h (by simp)

theorem nonMovementBest_eligible {action : GameAction}
    {boundKeys lockedKeySet : List String} {fingerConfig : FingerConfigMap}
    {movementKeys : List String}
    {movementFingers availableFingers blockedFingers : List Finger}
    {fingerLoad : FingerLoad} :
    ∀ (l : List ScoredKey) (best : Option (ScoredKey × ℚ))
      (res : ScoredKey × ℚ),
      (∀ pr, best = some pr → nonMovementEligible action boundKeys
        lockedKeySet fingerConfig movementKeys movementFingers
        availableFingers blockedFingers pr.1 = true) →
      nonMovementBest action boundKeys lockedKeySet fingerLoad fingerConfig
        movementKeys movementFingers availableFingers blockedFingers best l =
        some res →
      nonMovementEligible action boundKeys lockedKeySet fingerConfig
        movementKeys movementFingers availableFingers blockedFingers res.1 =
        true := by
  intro l
  induction l with
  | nil => intro best res hbest h; exact hbest res h
  | cons sk rest ih =>
    intro best res hbest h
    rw [nonMovementBest] at h
    by_cases he : nonMovementEligible action boundKeys lockedKeySet
        fingerConfig movementKeys movementFingers availableFingers
        blockedFingers sk = true
    · rw [if_pos he] at h
      cases best with
      | none =>
        exact ih _ res (fun pr hpr => by
          obtain rfl := Option.some.inj hpr
          exact he) h
      | some pr0 =>
        dsimp only at h
        by_cases hge : nonMovementScore action fingerLoad sk ≥ pr0.2
        · rw [if_pos hge] at h
          exact ih _ res (fun pr hpr => by
            obtain rfl := Option.some.inj hpr
            exact hbest _ rfl) h
        · rw [if_neg hge] at h
          exact ih _ res (fun pr hpr => by
            obtain rfl := Option.some.inj hpr
            exact he) h
    · rw [if_neg he] at h
      exact ih best res hbest h

/-- What one successful `allocateActionWithLoad` call guarantees about the
binding it produces. -/
theorem allocAWL_spec {action : GameAction} {scoredKeys : List ScoredKey}
    {boundKeys : List String} {lockedBinds : LockedBinds}
    {lockedKeySet : List String} {fingerLoad : FingerLoad}
    {fingerConfig : FingerConfigMap} {movementConfig : MovementConfig}
    {movementKeys : List String}
    {movementFingers availableFingers : List Finger}
    {actionFingerMap : List (String × List Finger)}
    {allActions : List GameAction} {bnd : Binding} {fgs : List Finger}
    {fl2 : FingerLoad}
    (h : allocateActionWithLoad action scoredKeys boundKeys lockedBinds
      lockedKeySet fingerLoad fingerConfig movementConfig movementKeys
      movementFingers availableFingers actionFingerMap allActions =
      some (bnd, fgs, fl2)) :
    bnd.action = action.name ∧
    ((lockedKeyOf lockedBinds action.name = some bnd.key) ∨
     (lockedKeyOf lockedBinds action.name = none ∧ bnd.key ∉ boundKeys ∧
      ((action.type = ActionType.DIRECTIONAL ∧
        ∃ axis, findAxisForAction action movementConfig = some axis ∧
          (bnd.key = axis.positiveKey ∨ bnd.key = axis.negativeKey)) ∨
       (action.type ≠ ActionType.DIRECTIONAL ∧ bnd.key ∉ lockedKeySet ∧
        bnd.key ∉ movementKeys)))) := by
  unfold allocateActionWithLoad at h
  cases hlk : lockedKeyOf lockedBinds action.name with
  | some lockedKey =>
    rw [hlk] at h
    dsimp only at h
    obtain ⟨h1, -⟩ := Prod.mk.inj (Option.some.inj h)
    obtain ⟨ha, hk⟩ := Binding.mk.inj h1
    exact ⟨ha ▸ rfl, Or.inl (congrArg some hk)⟩
  | none =>
    rw [hlk] at h
    by_cases hdir : action.type = ActionType.DIRECTIONAL
    · rw [if_pos hdir] at h
      unfold allocateMovementAction at h
      cases hax : findAxisForAction action movementConfig with
      | none => rw [hax] at h; exact absurd h (by simp)
      | some axisConfig =>
        rw [hax] at h
        dsimp only at h
        cases hfind : scoredKeys.find? (fun key =>
            decide (key.code ∈ [axisConfig.positiveKey,
              axisConfig.negativeKey]) && decide (key.code ∉ boundKeys)) with
        | none => rw [hfind] at h; exact absurd h (by simp)
        | some bestKey =>
          rw [hfind] at h
          dsimp only at h
          obtain ⟨h1, -⟩ := Prod.mk.inj (Option.some.inj h)
          obtain ⟨ha, hk⟩ := Binding.mk.inj h1
          have hpred := List.find?_some hfind
          rw [Bool.and_eq_true, decide_eq_true_eq, decide_eq_true_eq] at hpred
          refine ⟨ha ▸ rfl, Or.inr ⟨rfl, ?_, Or.inl ⟨hdir, axisConfig, rfl, ?_⟩⟩⟩
          · rw [← hk]; exact hpred.2
          · rw [← hk]
            rcases List.mem_cons.1 hpred.1 with h2 | h2
            · exact Or.inl h2
            · exact Or.inr (List.mem_singleton.1 h2)
    · rw [if_neg hdir] at h
      unfold allocateNonMovementAction at h
      dsimp only at h
      cases hbest : nonMovementBest action boundKeys lockedKeySet fingerLoad
          fingerConfig movementKeys movementFingers availableFingers
          (getBlockedFingersForConcurrency action actionFingerMap allActions)
          none scoredKeys with
      | none => rw [hbest] at h; exact absurd h (by simp)
      | some res =>
        rw [hbest] at h
        dsimp only at h
        obtain ⟨h1, -⟩ := Prod.mk.inj (Option.some.inj h)
        obtain ⟨ha, hk⟩ := Binding.mk.inj h1
        have helig := nonMovementBest_eligible scoredKeys none res
          (fun pr hpr => by simp at hpr) hbest
        unfold nonMovementEligible at helig
        rw [Bool.and_eq_true, Bool.and_eq_true, Bool.and_eq_true,
          Bool.and_eq_true, Bool.and_eq_true, Bool.and_eq_true] at helig
        obtain ⟨⟨⟨⟨⟨⟨hb1, hb2⟩, hb3⟩, hb4⟩, hb5⟩, hb6⟩, hb7⟩ := helig
        rw [decide_eq_true_eq] at hb1 hb2 hb3
        refine ⟨ha ▸ rfl, Or.inr ⟨rfl, ?_, Or.inr ⟨hdir, ?_, ?_⟩⟩⟩
        · rw [← hk]; exact hb1
        · rw [← hk]; exact hb2
        · rw [← hk]; exact hb3

/-- The locked branch of `allocateActionWithLoad` always succeeds, with
exactly the locked binding. -/
theorem allocAWL_locked {action : GameAction} {scoredKeys : List ScoredKey}
    {boundKeys : List String} {lockedBinds : LockedBinds}
    {lockedKeySet : List String} {fingerLoad : FingerLoad}
    {fingerConfig : FingerConfigMap} {movementConfig : MovementConfig}
    {movementKeys : List String}
    {movementFingers availableFingers : List Finger}
    {actionFingerMap : List (String × List Finger)}
    {allActions : List GameAction} {k : String}
    (hlk : lockedKeyOf lockedBinds action.name = some k) :
    ∃ fgs fl2, allocateActionWithLoad action scoredKeys boundKeys lockedBinds
      lockedKeySet fingerLoad fingerConfig movementConfig movementKeys
      movementFingers availableFingers actionFingerMap allActions =
      some (⟨action.name, k⟩, fgs, fl2) := by
  unfold allocateActionWithLoad
  rw [hlk]
  exact ⟨_, _, rfl⟩

/-- The payload guaranteed for every binding the pass produces for a given
action (the state-dependent `boundKeys` fact dropped). -/
def producedFrom (lockedBinds : LockedBinds) (movementConfig : MovementConfig)
    (lockedKeySet movementKeys : List String) (a : GameAction) (b : Binding) :
    Prop :=
  b.action = a.name ∧
  (lockedKeyOf lockedBinds a.name = some b.key ∨
   (lockedKeyOf lockedBinds a.name = none ∧
    ((a.type = ActionType.DIRECTIONAL ∧
      ∃ axis, findAxisForAction a movementConfig = some axis ∧
        (b.key = axis.positiveKey ∨ b.key = axis.negativeKey)) ∨
     (a.type ≠ ActionType.DIRECTIONAL ∧ b.key ∉ lockedKeySet ∧
      b.key ∉ movementKeys))))

theorem foldl_allocStep_bindings_pre (scoredKeys : List ScoredKey)
    (lockedBinds : LockedBinds) (lockedKeySet : List String)
    (fingerConfig : FingerConfigMap) (movementConfig : MovementConfig)
    (movementKeys : List String)
    (movementFingers availableFingers : List Finger)
    (allActions : List GameAction) :
    ∀ (rest : List GameAction) (st : AllocState),
      ∃ tail, (rest.foldl (allocStep scoredKeys lockedBinds lockedKeySet
        fingerConfig movementConfig movementKeys movementFingers
        availableFingers allActions) st).bindings = st.bindings ++ tail := by
  intro rest
  induction rest with
  | nil => intro st; exact ⟨[], by simp⟩
  | cons a rest2 ih =>
    intro st
    rw [List.foldl_cons]
    obtain ⟨tail, htail⟩ := ih (allocStep scoredKeys lockedBinds lockedKeySet
      fingerConfig movementConfig movementKeys movementFingers
      availableFingers allActions st a)
    unfold allocStep at htail ⊢
    cases hr : allocateActionWithLoad a scoredKeys st.boundKeys lockedBinds
        lockedKeySet st.fingerLoad fingerConfig movementConfig movementKeys
        movementFingers availableFingers st.actionFingerMap allActions with
    | none =>
      rw [hr] at htail
      exact ⟨tail, htail⟩
    | some r =>
      rw [hr] at htail
      obtain ⟨binding, fingers, fingerLoad2⟩ := r
      refine ⟨[binding] ++ tail, ?_⟩
      rw [htail]
      simp

theorem foldl_allocStep_locked_mem (scoredKeys : List ScoredKey)
    (lockedBinds : LockedBinds) (lockedKeySet : List String)
    (fingerConfig : FingerConfigMap) (movementConfig : MovementConfig)
    (movementKeys : List String)
    (movementFingers availableFingers : List Finger)
    (allActions : List GameAction) :
    ∀ (rest : List GameAction) (st : AllocState) (a : GameAction)
      (k : String), a ∈ rest → lockedKeyOf lockedBinds a.name = some k →
      (⟨a.name, k⟩ : Binding) ∈ (rest.foldl (allocStep scoredKeys lockedBinds
        lockedKeySet fingerConfig movementConfig movementKeys movementFingers
        availableFingers allActions) st).bindings := by
  intro rest
  induction rest with
  | nil => intro st a k ha _; simp at ha
  | cons hd rest2 ih =>
    intro st a k ha hlk
    rw [List.foldl_cons]
    rcases List.mem_cons.1 ha with rfl | ha2
    · obtain ⟨fgs, fl2, hsome⟩ := @allocAWL_locked a scoredKeys st.boundKeys
        lockedBinds lockedKeySet st.fingerLoad fingerConfig movementConfig
        movementKeys movementFingers availableFingers st.actionFingerMap
        allActions k hlk
      obtain ⟨tail, htail⟩ := foldl_allocStep_bindings_pre scoredKeys
        lockedBinds lockedKeySet fingerConfig movementConfig movementKeys
        movementFingers availableFingers allActions rest2
        (allocStep scoredKeys lockedBinds lockedKeySet fingerConfig
          movementConfig movementKeys movementFingers availableFingers
          allActions st a)
      rw [htail]
      have : (allocStep scoredKeys lockedBinds lockedKeySet fingerConfig
          movementConfig movementKeys movementFingers availableFingers
          allActions st a).bindings = st.bindings ++ [⟨a.name, k⟩] := by
        unfold allocStep
        rw [hsome]
      rw [this]
      simp
    · exact ih _ a k ha2 hlk

theorem foldl_allocStep_bindings_from (scoredKeys : List ScoredKey)
    (lockedBinds : LockedBinds) (lockedKeySet : List String)
    (fingerConfig : FingerConfigMap) (movementConfig : MovementConfig)
    (movementKeys : List String)
    (movementFingers availableFingers : List Finger)
    (allActions : List GameAction) :
    ∀ (rest : List GameAction) (st : AllocState) (b : Binding),
      b ∈ (rest.foldl (allocStep scoredKeys lockedBinds lockedKeySet
        fingerConfig movementConfig movementKeys movementFingers
        availableFingers allActions) st).bindings →
      b ∈ st.bindings ∨ ∃ a ∈ rest, producedFrom lockedBinds movementConfig
        lockedKeySet movementKeys a b := by
  intro rest
  induction rest with
  | nil => intro st b hb; exact Or.inl hb
  | cons hd rest2 ih =>
    intro st b hb
    rw [List.foldl_cons] at hb
    rcases ih _ b hb with h2 | h2
    · unfold allocStep at h2
      cases hr : allocateActionWithLoad hd scoredKeys st.boundKeys lockedBinds
          lockedKeySet st.fingerLoad fingerConfig movementConfig movementKeys
          movementFingers availableFingers st.actionFingerMap allActions with
      | none =>
        rw [hr] at h2
        exact Or.inl h2
      | some r =>
        rw [hr] at h2
        obtain ⟨binding, fingers, fingerLoad2⟩ := r
        dsimp only at h2
        rcases List.mem_append.1 h2 with h3 | h3
        · exact Or.inl h3
        · obtain rfl := List.mem_singleton.1 h3
          obtain ⟨hname, hdisj⟩ := allocAWL_spec hr
          refine Or.inr ⟨hd, List.mem_cons_self _ _, hname, ?_⟩
          rcases hdisj with h4 | ⟨h4, _, h5⟩
          · exact Or.inl h4
          · exact Or.inr ⟨h4, h5⟩
    · obtain ⟨a, ha, hp⟩ := h2
      exact Or.inr ⟨a, List.mem_cons_of_mem _ ha, hp⟩

/-- Invariant of the allocation pass fold: with injective locks that avoid
the movement keys and distinct action names, the bound keys stay
pairwise distinct. -/
theorem foldl_allocStep_inv (scoredKeys : List ScoredKey)
    (lockedBinds : LockedBinds) (fingerConfig : FingerConfigMap)
    (movementConfig : MovementConfig)
    (movementFingers availableFingers : List Finger)
    (allActions : List GameAction)
    (hinj : ∀ a ∈ allActions, ∀ b ∈ allActions, ∀ k,
      lockedKeyOf lockedBinds a.name = some k →
      lockedKeyOf lockedBinds b.name = some k → a.name = b.name)
    (hmov : ∀ a ∈ allActions, ∀ k, lockedKeyOf lockedBinds a.name = some k →
      k ∉ buildMovementKeySet movementConfig) :
    ∀ (rest : List GameAction) (st : AllocState),
      (rest.map GameAction.name).Nodup →
      (∀ a ∈ rest, a ∈ allActions) →
      (∀ x, x ∈ st.boundKeys ↔ x ∈ st.bindings.map Binding.key) →
      (st.bindings.map Binding.key).Nodup →
      (∀ a ∈ rest, ∀ k, lockedKeyOf lockedBinds a.name = some k →
        k ∉ st.boundKeys) →
      ((rest.foldl (allocStep scoredKeys lockedBinds
          (lockedBinds.map Prod.snd) fingerConfig movementConfig
          (buildMovementKeySet movementConfig) movementFingers
          availableFingers allActions) st).bindings.map Binding.key).Nodup := by
  intro rest
  induction rest with
  | nil => intro st _ _ _ hb _; exact hb
  | cons hd rest2 ih =>
    intro st hnames hsub hbk hb hc
    rw [List.map_cons, List.nodup_cons] at hnames
    rw [List.foldl_cons]
    cases hr : allocateActionWithLoad hd scoredKeys st.boundKeys lockedBinds
        (lockedBinds.map Prod.snd) st.fingerLoad fingerConfig movementConfig
        (buildMovementKeySet movementConfig) movementFingers availableFingers
        st.actionFingerMap allActions with
    | none =>
      have hstep : allocStep scoredKeys lockedBinds
          (lockedBinds.map Prod.snd) fingerConfig movementConfig
          (buildMovementKeySet movementConfig) movementFingers
          availableFingers allActions st hd = st := by
        unfold allocStep
        rw [hr]
      rw [hstep]
      exact ih st hnames.2 (fun a ha => hsub a (List.mem_cons_of_mem _ ha))
        hbk hb (fun a ha => hc a (List.mem_cons_of_mem _ ha))
    | some r =>
      obtain ⟨bnd, fgs, fl2⟩ := r
      have hstep : allocStep scoredKeys lockedBinds
          (lockedBinds.map Prod.snd) fingerConfig movementConfig
          (buildMovementKeySet movementConfig) movementFingers
          availableFingers allActions st hd =
          { bindings := st.bindings ++ [bnd]
            boundKeys := bnd.key :: st.boundKeys
            fingerLoad := fl2
            actionFingerMap := mapSet st.actionFingerMap hd.name fgs } := by
        unfold allocStep
        rw [hr]
      rw [hstep]
      obtain ⟨hname, hdisj⟩ := allocAWL_spec hr
      have hnotin : bnd.key ∉ st.boundKeys := by
        rcases hdisj with h4 | ⟨-, h4, -⟩
        · exact hc hd (List.mem_cons_self _ _) bnd.key h4
        · exact h4
      have hbk2 : ∀ x, x ∈ bnd.key :: st.boundKeys ↔
          x ∈ (st.bindings ++ [bnd]).map Binding.key := by
        intro x
        rw [List.map_append, List.map_singleton, List.mem_append,
          List.mem_singleton, List.mem_cons]
        rw [hbk x]
        tauto
      have hb2 : ((st.bindings ++ [bnd]).map Binding.key).Nodup := by
        rw [List.map_append, List.map_singleton]
        refine hb.append (List.nodup_singleton _) ?_
        intro x hx hx2
        obtain rfl := List.mem_singleton.1 hx2
        exact hnotin ((hbk bnd.key).2 hx)
      have hc2 : ∀ a ∈ rest2, ∀ k, lockedKeyOf lockedBinds a.name = some k →
          k ∉ bnd.key :: st.boundKeys := by
        intro a ha k hk
        rw [List.mem_cons]
        rintro (rfl | h5)
        · rcases hdisj with h4 | ⟨-, -, h6⟩
          · have heq : hd.name = a.name := hinj hd
              (hsub hd (List.mem_cons_self _ _)) a
              (hsub a (List.mem_cons_of_mem _ ha)) bnd.key h4 hk
            exact hnames.1 (heq ▸ List.mem_map_of_mem GameAction.name ha)
          · rcases h6 with ⟨-, axis, hax, hkey⟩ | ⟨-, h7, -⟩
            · have hmem := findAxis_keys_mem_movementKeys hax
              have : bnd.key ∈ buildMovementKeySet movementConfig := by
                rcases hkey with h8 | h8
                · rw [h8]; exact hmem.1
                · rw [h8]; exact hmem.2
              exact hmov a (hsub a (List.mem_cons_of_mem _ ha)) bnd.key hk this
            · exact h7 (lockedKeyOf_mem_vals hk)
        · exact hc a (List.mem_cons_of_mem _ ha) k hk h5
      exact ih _ hnames.2 (fun a ha => hsub a (List.mem_cons_of_mem _ ha))
        hbk2 hb2 hc2

/-- Shared helper: the amended key-injectivity of one allocation pass. -/
theorem allocatePass_keys_nodup (actions : List GameAction)
    (scoredKeys : List ScoredKey) (fingerConfig : FingerConfigMap)
    (movementConfig : MovementConfig) (availableFingers : List Finger)
    (lockedBinds : LockedBinds)
    (hnames : (actions.map GameAction.name).Nodup)
    (hinj : ∀ a ∈ actions, ∀ b ∈ actions, ∀ k,
      lockedKeyOf lockedBinds a.name = some k →
      lockedKeyOf lockedBinds b.name = some k → a.name = b.name)
    (hmov : ∀ a ∈ actions, ∀ k, lockedKeyOf lockedBinds a.name = some k →
      k ∉ buildMovementKeySet movementConfig) :
    ((allocatePass actions scoredKeys fingerConfig movementConfig
      availableFingers lockedBinds).bindings.map Binding.key).Nodup := by
  unfold allocatePass
  dsimp only
  apply foldl_allocStep_inv scoredKeys lockedBinds fingerConfig
    movementConfig _ availableFingers actions hinj hmov
  · exact ((stableSort_perm _ actions).map GameAction.name).nodup_iff.2 hnames
  · intro a ha
    exact (mem_stableSort _).1 ha
  · intro x
    simp
  · simp
  · intro a _ k _
    simp

/-- Claim C1 (amended): one greedy allocation pass produces key-injective
bindings PROVIDED the action names are pairwise distinct, no two actions
are locked to the same key, and no locked key of a listed action is one
of the four movement-axis keys.  Without those conditions the lock branch
binds unconditionally and can duplicate a key (see the counterexample). -/
theorem c1_allocatePass_key_injective (actions : List GameAction)
    (scoredKeys : List ScoredKey) (fingerConfig : FingerConfigMap)
    (movementConfig : MovementConfig) (availableFingers : List Finger)
    (lockedBinds : LockedBinds)
    (hnames : (actions.map GameAction.name).Nodup)
    (hinj : ∀ a ∈ actions, ∀ b ∈ actions, ∀ k,
      lockedKeyOf lockedBinds a.name = some k →
      lockedKeyOf lockedBinds b.name = some k → a.name = b.name)
    (hmov : ∀ a ∈ actions, ∀ k, lockedKeyOf lockedBinds a.name = some k →
      k ∉ buildMovementKeySet movementConfig) :
    ((allocatePass actions scoredKeys fingerConfig movementConfig
      availableFingers lockedBinds).bindings.map Binding.key).Nodup :=
  allocatePass_keys_nodup actions scoredKeys fingerConfig movementConfig
    availableFingers lockedBinds hnames hinj hmov

/-- Claim C1 counterexample: two actions locked to the same key `KeyJ` are
both bound to it in a single pass; the pass output repeats the key. -/
theorem c1_counterexample :
    ((allocatePass
      [⟨"A", 0, ActionType.COMBAT, 50, []⟩, ⟨"B", 0, ActionType.COMBAT, 40, []⟩]
      [] [] ⟨⟨"KeyW", "KeyS", [], false⟩, ⟨"KeyD", "KeyA", [], false⟩⟩ []
      [("A", "KeyJ"), ("B", "KeyJ")]).bindings.map Binding.key) =
      ["KeyJ", "KeyJ"] ∧
    ¬ ((allocatePass
      [⟨"A", 0, ActionType.COMBAT, 50, []⟩, ⟨"B", 0, ActionType.COMBAT, 40, []⟩]
      [] [] ⟨⟨"KeyW", "KeyS", [], false⟩, ⟨"KeyD", "KeyA", [], false⟩⟩ []
      [("A", "KeyJ"), ("B", "KeyJ")]).bindings.map Binding.key).Nodup := by
  have h : ((allocatePass
      [⟨"A", 0, ActionType.COMBAT, 50, []⟩, ⟨"B", 0, ActionType.COMBAT, 40, []⟩]
      [] [] ⟨⟨"KeyW", "KeyS", [], false⟩, ⟨"KeyD", "KeyA", [], false⟩⟩ []
      [("A", "KeyJ"), ("B", "KeyJ")]).bindings.map Binding.key) =
      ["KeyJ", "KeyJ"] := by
    simp [allocatePass, sortActionsByFrequency, stableSort, insertSorted,
      allocStep, allocateActionWithLoad, lockedKeyOf, alookup,
      buildMovementKeySet, buildExclusiveMovementFingers,
      (by norm_num : ((40 : ℚ) ≤ 50))]
  exact ⟨h, by rw [h]; simp⟩

/-- Witness for the amended C1: two distinct actions, one locked to a
non-movement key — a real pass, key-injective. -/
theorem c1_witness :
    ((allocatePass
      [⟨"A", 0, ActionType.COMBAT, 50, []⟩, ⟨"B", 0, ActionType.COMBAT, 40, []⟩]
      [] [] ⟨⟨"KeyW", "KeyS", [], false⟩, ⟨"KeyD", "KeyA", [], false⟩⟩ []
      [("A", "KeyJ")]).bindings.map Binding.key).Nodup := by
  apply c1_allocatePass_key_injective
  · simp
  · intro a ha b hb k h1 h2
    rcases List.mem_cons.1 ha with rfl | ha2
    · rcases List.mem_cons.1 hb with rfl | hb2
      · rfl
      · rcases List.mem_singleton.1 hb2 with rfl
        simp [lockedKeyOf, alookup] at h2
    · rcases List.mem_singleton.1 ha2 with rfl
      simp [lockedKeyOf, alookup] at h1
  · intro a ha k h
    rcases List.mem_cons.1 ha with rfl | ha2
    · simp [lockedKeyOf, alookup] at h
      rw [← h]
      simp [buildMovementKeySet]
    · rcases List.mem_singleton.1 ha2 with rfl
      simp [lockedKeyOf, alookup] at h

/-- When no action carries a concurrency list the repair phase is skipped
and `allocate` is the first pass's bindings. -/
theorem allocate_eq_pass_of_no_concurrent (actions : List GameAction)
    (scoredKeys : List ScoredKey) (fingerConfig : FingerConfigMap)
    (movementConfig : MovementConfig) (availableFingers : List Finger)
    (lockedBinds : LockedBinds)
    (hconc : ∀ a ∈ actions, a.concurrentWith = []) :
    allocate actions scoredKeys fingerConfig movementConfig availableFingers
      lockedBinds =
    (allocatePass actions scoredKeys fingerConfig movementConfig
      availableFingers lockedBinds).bindings := by
  unfold allocate
  dsimp only
  have hfilter : actions.filter (fun a =>
      decide (a.name ∉ (allocatePass actions scoredKeys fingerConfig
        movementConfig availableFingers lockedBinds).bindings.map
          Binding.action) && decide (a.concurrentWith ≠ [])) = [] := by
    rw [List.filter_eq_nil_iff]
    intro a ha
    rw [Bool.and_eq_true, decide_eq_true_eq, decide_eq_true_eq]
    rintro ⟨-, hne⟩
    exact hne (hconc a ha)
  rw [hfilter]
  rw [if_pos rfl]

/-- Claim C2 (amended): assuming distinct action names, injective locks
avoiding the movement-axis keys, and no concurrency lists (so the
displacement-repair phase cannot rewrite the locks), a locked action `A`
receives exactly its locked key `k` in the allocator's output, and no
binding of any other action uses `k`. -/
theorem c2_locked_binding (actions : List GameAction)
    (scoredKeys : List ScoredKey) (fingerConfig : FingerConfigMap)
    (movementConfig : MovementConfig) (availableFingers : List Finger)
    (lockedBinds : LockedBinds) (A : GameAction) (k : String)
    (hnames : (actions.map GameAction.name).Nodup)
    (hinj : ∀ a ∈ actions, ∀ b ∈ actions, ∀ k2,
      lockedKeyOf lockedBinds a.name = some k2 →
      lockedKeyOf lockedBinds b.name = some k2 → a.name = b.name)
    (hmov : ∀ a ∈ actions, ∀ k2, lockedKeyOf lockedBinds a.name = some k2 →
      k2 ∉ buildMovementKeySet movementConfig)
    (hconc : ∀ a ∈ actions, a.concurrentWith = [])
    (hA : A ∈ actions) (hk : lockedKeyOf lockedBinds A.name = some k) :
    (⟨A.name, k⟩ : Binding) ∈ allocate actions scoredKeys fingerConfig
      movementConfig availableFingers lockedBinds ∧
    ∀ b ∈ allocate actions scoredKeys fingerConfig movementConfig
      availableFingers lockedBinds, b.key = k → b.action = A.name := by
  rw [allocate_eq_pass_of_no_concurrent actions scoredKeys fingerConfig
    movementConfig availableFingers lockedBinds hconc]
  have hmem : (⟨A.name, k⟩ : Binding) ∈ (allocatePass actions scoredKeys
      fingerConfig movementConfig availableFingers lockedBinds).bindings := by
    unfold allocatePass
    dsimp only
    exact foldl_allocStep_locked_mem scoredKeys lockedBinds _ fingerConfig
      movementConfig _ _ availableFingers actions _ _ A k
      ((mem_stableSort _).2 hA) hk
  have hnd : ((allocatePass actions scoredKeys fingerConfig movementConfig
      availableFingers lockedBinds).bindings.map Binding.key).Nodup :=
    allocatePass_keys_nodup actions scoredKeys fingerConfig
      movementConfig availableFingers lockedBinds hnames hinj hmov
  refine ⟨hmem, ?_⟩
  intro b hb hbk
  have := List.inj_on_of_nodup_map hnd hb hmem (by rw [hbk])
  rw [this]

/-- Claim C2 counterexample: with the lock map assigning `KeyJ` to `A`, a
second action `B` locked to the same key also receives `KeyJ` in the
allocator's output — the locked key is NOT unavailable to other actions. -/
theorem c2_counterexample :
    lockedKeyOf [("A", "KeyJ"), ("B", "KeyJ")] "A" = some "KeyJ" ∧
    (⟨"B", "KeyJ"⟩ : Binding) ∈ allocate
      [⟨"A", 0, ActionType.COMBAT, 50, []⟩, ⟨"B", 0, ActionType.COMBAT, 40, []⟩]
      [] [] ⟨⟨"KeyW", "KeyS", [], false⟩, ⟨"KeyD", "KeyA", [], false⟩⟩ []
      [("A", "KeyJ"), ("B", "KeyJ")] ∧
    "B" ≠ "A" := by
  refine ⟨by simp [lockedKeyOf, alookup], ?_, by decide⟩
  rw [allocate_eq_pass_of_no_concurrent _ _ _ _ _ _ (by
    intro a ha
    rcases List.mem_cons.1 ha with rfl | ha2
    · rfl
    · rcases List.mem_singleton.1 ha2 with rfl
      rfl)]
  have h : (allocatePass
      [⟨"A", 0, ActionType.COMBAT, 50, []⟩, ⟨"B", 0, ActionType.COMBAT, 40, []⟩]
      [] [] ⟨⟨"KeyW", "KeyS", [], false⟩, ⟨"KeyD", "KeyA", [], false⟩⟩ []
      [("A", "KeyJ"), ("B", "KeyJ")]).bindings =
      [⟨"A", "KeyJ"⟩, ⟨"B", "KeyJ"⟩] := by
    simp [allocatePass, sortActionsByFrequency, stableSort, insertSorted,
      allocStep, allocateActionWithLoad, lockedKeyOf, alookup,
      buildMovementKeySet, buildExclusiveMovementFingers,
      (by norm_num : ((40 : ℚ) ≤ 50))]
  rw [h]
  simp

/-- Witness for the amended C2: one locked action among two, injective
locks, no concurrency lists. -/
theorem c2_witness :
    (⟨"A", "KeyJ"⟩ : Binding) ∈ allocate
      [⟨"A", 0, ActionType.COMBAT, 50, []⟩, ⟨"B", 0, ActionType.COMBAT, 40, []⟩]
      [] [] ⟨⟨"KeyW", "KeyS", [], false⟩, ⟨"KeyD", "KeyA", [], false⟩⟩ []
      [("A", "KeyJ")] ∧
    ∀ b ∈ allocate
      [⟨"A", 0, ActionType.COMBAT, 50, []⟩, ⟨"B", 0, ActionType.COMBAT, 40, []⟩]
      [] [] ⟨⟨"KeyW", "KeyS", [], false⟩, ⟨"KeyD", "KeyA", [], false⟩⟩ []
      [("A", "KeyJ")], b.key = "KeyJ" → b.action = "A" := by
  have h := c2_locked_binding
    [⟨"A", 0, ActionType.COMBAT, 50, []⟩, ⟨"B", 0, ActionType.COMBAT, 40, []⟩]
    [] [] ⟨⟨"KeyW", "KeyS", [], false⟩, ⟨"KeyD", "KeyA", [], false⟩⟩ []
    [("A", "KeyJ")] ⟨"A", 0, ActionType.COMBAT, 50, []⟩ "KeyJ"
    (by simp)
    (by
      intro a ha b hb k h1 h2
      rcases List.mem_cons.1 ha with rfl | ha2
      · rcases List.mem_cons.1 hb with rfl | hb2
        · rfl
        · rcases List.mem_singleton.1 hb2 with rfl
          simp [lockedKeyOf, alookup] at h2
      · rcases List.mem_singleton.1 ha2 with rfl
        simp [lockedKeyOf, alookup] at h1)
    (by
      intro a ha k h
      rcases List.mem_cons.1 ha with rfl | ha2
      · simp [lockedKeyOf, alookup] at h
        rw [← h]
        simp [buildMovementKeySet]
      · rcases List.mem_singleton.1 ha2 with rfl
        simp [lockedKeyOf, alookup] at h)
    (by
      intro a ha
      rcases List.mem_cons.1 ha with rfl | ha2
      · rfl
      · rcases List.mem_singleton.1 ha2 with rfl
        rfl)
    (by simp)
    (by simp [lockedKeyOf, alookup])
  exact h

/-- Claim C3 (amended): every binding one pass produces for a
`DIRECTIONAL` action that has NO locked bind uses one of the two
configured keys of the axis derived from its name (distinct action names
assumed, since bindings are identified by name).  A locked directional
action is bound to its locked key instead, whatever it is. -/
theorem c3_directional_axis_key (actions : List GameAction)
    (scoredKeys : List ScoredKey) (fingerConfig : FingerConfigMap)
    (movementConfig : MovementConfig) (availableFingers : List Finger)
    (lockedBinds : LockedBinds) (a : GameAction) (b : Binding)
    (hnames : (actions.map GameAction.name).Nodup)
    (ha : a ∈ actions) (hdir : a.type = ActionType.DIRECTIONAL)
    (hnolock : lockedKeyOf lockedBinds a.name = none)
    (hb : b ∈ (allocatePass actions scoredKeys fingerConfig movementConfig
      availableFingers lockedBinds).bindings)
    (hmatch : b.action = a.name) :
    ∃ axis, findAxisForAction a movementConfig = some axis ∧
      (b.key = axis.positiveKey ∨ b.key = axis.negativeKey) := by
  unfold allocatePass at hb
  dsimp only at hb
  rcases foldl_allocStep_bindings_from scoredKeys lockedBinds _ fingerConfig
      movementConfig _ _ availableFingers actions _ _ b hb with
    h | ⟨a2, ha2, hname2, hdisj⟩
  · simp at h
  · have ha2m : a2 ∈ actions := (mem_stableSort _).1 ha2
    have heq : a2 = a := by
      apply List.inj_on_of_nodup_map hnames ha2m ha
      rw [← hname2, hmatch]
    subst heq
    rcases hdisj with h4 | ⟨h4, h5⟩
    · rw [hnolock] at h4
      exact absurd h4 (by simp)
    · rcases h5 with ⟨-, axis, hax, hkey⟩ | ⟨hnd, -, -⟩
      · exact ⟨axis, hax, hkey⟩
      · exact absurd hdir hnd

/-- Claim C3 counterexample: a `DIRECTIONAL` action locked to `KeyJ` is
bound to `KeyJ`, which is neither of its vertical axis's configured keys
`KeyW`/`KeyS` — the lock branch precedes the directional branch. -/
theorem c3_counterexample :
    (allocatePass [⟨"forward", 0, ActionType.DIRECTIONAL, 90, []⟩] [] []
      ⟨⟨"KeyW", "KeyS", [Finger.LeftMiddle], false⟩,
       ⟨"KeyD", "KeyA", [Finger.LeftRing], false⟩⟩ []
      [("forward", "KeyJ")]).bindings = [⟨"forward", "KeyJ"⟩] ∧
    findAxisForAction ⟨"forward", 0, ActionType.DIRECTIONAL, 90, []⟩
      ⟨⟨"KeyW", "KeyS", [Finger.LeftMiddle], false⟩,
       ⟨"KeyD", "KeyA", [Finger.LeftRing], false⟩⟩ =
      some ⟨"KeyW", "KeyS", [Finger.LeftMiddle], false⟩ ∧
    "KeyJ" ≠ "KeyW" ∧ "KeyJ" ≠ "KeyS" := by
  refine ⟨?_, ?_, by decide, by decide⟩
  · simp [allocatePass, sortActionsByFrequency, stableSort, insertSorted,
      allocStep, allocateActionWithLoad, lockedKeyOf, alookup,
      buildMovementKeySet, buildExclusiveMovementFingers]
  · simp [findAxisForAction, strIncludes]

/-- Witness for the amended C3: an unlocked `forward` action lands on its
vertical axis key `KeyW`. -/
theorem c3_witness :
    ∃ axis, findAxisForAction ⟨"forward", 0, ActionType.DIRECTIONAL, 90, []⟩
      ⟨⟨"KeyW", "KeyS", [Finger.LeftMiddle], false⟩,
       ⟨"KeyD", "KeyA", [Finger.LeftRing], false⟩⟩ = some axis ∧
      ((⟨"forward", "KeyW"⟩ : Binding).key = axis.positiveKey ∨
       (⟨"forward", "KeyW"⟩ : Binding).key = axis.negativeKey) := by
  apply c3_directional_axis_key
    [⟨"forward", 0, ActionType.DIRECTIONAL, 90, []⟩]
    [⟨"KeyW", 1, Finger.LeftMiddle, "KeyW", false, true⟩] []
    ⟨⟨"KeyW", "KeyS", [Finger.LeftMiddle], false⟩,
     ⟨"KeyD", "KeyA", [Finger.LeftRing], false⟩⟩ [] []
    ⟨"forward", 0, ActionType.DIRECTIONAL, 90, []⟩
  · simp
  · simp
  · rfl
  · simp [lockedKeyOf, alookup]
  · simp [allocatePass, sortActionsByFrequency, stableSort, insertSorted,
      allocStep, allocateActionWithLoad, allocateMovementAction,
      findAxisForAction, strIncludes, lockedKeyOf, alookup,
      buildMovementKeySet, buildExclusiveMovementFingers]
  · rfl

-- ═══════════════════════════════════════════════════════════════════════
-- C4: layout injectivity of the SA optimizer
-- ═══════════════════════════════════════════════════════════════════════

/-- The layout well-formedness the SA loop preserves: action names unique
(a JS `Map`) and key values unique (injectivity). -/
def LayoutInv (l : Layout) : Prop :=
  (keysOf l).Nodup ∧ (valsOf l).Nodup

theorem mapSet_mem_keys_any {α β : Type} [DecidableEq α] {m : List (α × β)}
    {k : α} : (m.any (fun p => decide (p.1 = k))) = true ↔ k ∈ keysOf m := by
  rw [List.any_eq_true]
  constructor
  · rintro ⟨p, hp, hpk⟩
    rw [decide_eq_true_eq] at hpk
    exact hpk ▸ List.mem_map_of_mem Prod.fst hp
  · intro h
    obtain ⟨p, hp, hpk⟩ := List.mem_map.1 h
    exact ⟨p, hp, by rw [decide_eq_true_eq]; exact hpk⟩

theorem any_key_eq_false {α β : Type} [DecidableEq α] {m : List (α × β)}
    {k : α} (h : ¬ (m.any (fun p => decide (p.1 = k))) = true) :
    k ∉ keysOf m :=
  fun hc => h (mapSet_mem_keys_any.2 hc)

theorem mapSet_keysOf {α β : Type} [DecidableEq α] (m : List (α × β))
    (k : α) (v : β) :
    keysOf (mapSet m k v) = if k ∈ keysOf m then keysOf m
      else keysOf m ++ [k] := by
  unfold mapSet
  by_cases h : k ∈ keysOf m
  · rw [if_pos (mapSet_mem_keys_any.2 h), if_pos h]
    unfold keysOf
    rw [List.map_map]
    apply List.map_congr_left
    intro p _
    by_cases hpk : p.1 = k
    · simp [hpk]
    · simp [hpk]
  · rw [if_neg (fun hc => h (mapSet_mem_keys_any.1 hc)), if_neg h]
    unfold keysOf
    rw [List.map_append]
    rfl

theorem mapSet_keys_nodup {α β : Type} [DecidableEq α] {m : List (α × β)}
    {k : α} {v : β} (h : (keysOf m).Nodup) :
    (keysOf (mapSet m k v)).Nodup := by
  rw [mapSet_keysOf]
  by_cases hm : k ∈ keysOf m
  · rw [if_pos hm]; exact h
  · rw [if_neg hm]
    refine h.append (List.nodup_singleton _) ?_
    intro x hx hx2
    obtain rfl := List.mem_singleton.1 hx2
    exact hm hx

theorem mapSet_vals_cases {α β : Type} [DecidableEq α] {m : List (α × β)}
    {k : α} {v v2 : β} (h : v2 ∈ valsOf (mapSet m k v)) :
    v2 = v ∨ v2 ∈ valsOf m := by
  obtain ⟨p, hp, hpv⟩ := List.mem_map.1 h
  rcases mapSet_entry_cases hp with h2 | h2
  · exact Or.inr (hpv ▸ List.mem_map_of_mem Prod.snd h2)
  · left; rw [← hpv, h2]

theorem map_id_of_key_notin {α β : Type} [DecidableEq α] {m : List (α × β)}
    {k : α} {v : β} (h : k ∉ keysOf m) :
    m.map (fun p => if p.1 = k then (k, v) else p) = m := by
  rw [show m.map (fun p => if p.1 = k then (k, v) else p) = m.map id by
    apply List.map_congr_left
    intro p hp
    have : p.1 ≠ k := fun he => h (he ▸ List.mem_map_of_mem Prod.fst hp)
    simp [this]]
  exact List.map_id m

theorem vals_replace_cases {α β : Type} [DecidableEq α] {m : List (α × β)}
    {k : α} {v v2 : β}
    (h : v2 ∈ valsOf (m.map (fun p => if p.1 = k then (k, v) else p))) :
    v2 = v ∨ v2 ∈ valsOf m := by
  unfold valsOf at h
  rw [List.map_map] at h
  obtain ⟨p, hp, hpv⟩ := List.mem_map.1 h
  by_cases hpk : p.1 = k
  · left
    rw [← hpv]
    show (Prod.snd ∘ fun p => if p.1 = k then (k, v) else p) p = v
    simp [hpk]
  · right
    rw [← hpv]
    show (Prod.snd ∘ fun p => if p.1 = k then (k, v) else p) p ∈ valsOf m
    have : (Prod.snd ∘ fun p => if p.1 = k then (k, v) else p) p = p.2 := by
      simp [hpk]
    rw [this]
    exact List.mem_map_of_mem Prod.snd hp

theorem vals_nodup_replace {α β : Type} [DecidableEq α] {k : α} {v : β} :
    ∀ {m : List (α × β)}, (keysOf m).Nodup → (valsOf m).Nodup →
      v ∉ valsOf m →
      (valsOf (m.map (fun p => if p.1 = k then (k, v) else p))).Nodup := by
  intro m
  induction m with
  | nil => intro _ _ _; simp [valsOf]
  | cons p rest ih =>
    intro hk hv hfresh
    rw [keysOf, List.map_cons, List.nodup_cons] at hk
    rw [valsOf, List.map_cons, List.nodup_cons] at hv
    have hfr : v ∉ valsOf rest := fun h => hfresh (List.mem_cons_of_mem _ h)
    have hfp : v ≠ p.2 := fun h => hfresh (h ▸ List.mem_cons_self _ _)
    rw [List.map_cons]
    by_cases hpk : p.1 = k
    · rw [if_pos hpk]
      have hknotin : k ∉ keysOf rest := hpk ▸ hk.1
      rw [map_id_of_key_notin hknotin]
      rw [valsOf, List.map_cons, List.nodup_cons]
      exact ⟨hfr, hv.2⟩
    · rw [if_neg hpk]
      rw [valsOf, List.map_cons, List.nodup_cons]
      refine ⟨?_, ih hk.2 hv.2 hfr⟩
      intro hmem
      rcases vals_replace_cases hmem with h3 | h3
      · exact hfp h3.symm
      · exact hv.1 h3

theorem mapSet_vals_nodup {α β : Type} [DecidableEq α] {k : α} {v : β}
    {m : List (α × β)} (hk : (keysOf m).Nodup) (hv : (valsOf m).Nodup)
    (hfresh : v ∉ valsOf m) : (valsOf (mapSet m k v)).Nodup := by
  unfold mapSet
  by_cases hany : (m.any (fun p => decide (p.1 = k))) = true
  · rw [if_pos hany]
    exact vals_nodup_replace hk hv hfresh
  · rw [if_neg hany]
    rw [valsOf, List.map_append]
    refine hv.append (List.nodup_singleton _) ?_
    intro x hx hx2
    obtain rfl := List.mem_singleton.1 hx2
    exact hfresh hx

theorem alookup_mem_keys {α β : Type} [DecidableEq α] {l : List (α × β)}
    {a : α} {v : β} (h : alookup a l = some v) : a ∈ keysOf l :=
  List.mem_map_of_mem Prod.fst (alookup_mem h)

theorem mapSet_self {α β : Type} [DecidableEq α] {l : List (α × β)} {a : α}
    {ka : β} (hk : (keysOf l).Nodup) (hA : alookup a l = some ka) :
    mapSet l a ka = l := by
  unfold mapSet
  rw [if_pos (mapSet_mem_keys_any.2 (alookup_mem_keys hA))]
  rw [show l.map (fun p => if p.1 = a then (a, ka) else p) = l.map id by
    apply List.map_congr_left
    intro p hp
    by_cases hpa : p.1 = a
    · rw [if_pos hpa]
      have hpl : alookup p.1 l = some p.2 := mem_alookup hp hk
      rw [hpa, hA] at hpl
      obtain hka := Option.some.inj hpl
      show (a, ka) = p
      rw [← hpa, hka]
    · rw [if_neg hpa]
      rfl]
  exact List.map_id l

theorem mapSet_swap_inv {l : Layout} {a b ka kb : String}
    (hinv : LayoutInv l) (hA : alookup a l = some ka)
    (hB : alookup b l = some kb) :
    LayoutInv (mapSet (mapSet l a kb) b ka) := by
  obtain ⟨hk, hv⟩ := hinv
  refine ⟨mapSet_keys_nodup (mapSet_keys_nodup hk), ?_⟩
  by_cases hab : a = b
  · subst hab
    rw [hA] at hB
    obtain rfl := Option.some.inj hB
    rw [show mapSet l a ka = l from mapSet_self hk hA,
      show mapSet l a ka = l from mapSet_self hk hA]
    exact hv
  · have hamem : a ∈ keysOf l := alookup_mem_keys hA
    have hbmem : b ∈ keysOf l := alookup_mem_keys hB
    have hmm : ∀ (m : Layout) (k v : String), k ∈ keysOf m →
        mapSet m k v = m.map (fun p => if p.1 = k then (k, v) else p) := by
      intro m k v h
      unfold mapSet
      rw [if_pos (mapSet_mem_keys_any.2 h)]
    have hm1 : mapSet l a kb = l.map (fun p => if p.1 = a then (a, kb) else p) :=
      hmm l a kb hamem
    have hbmem1 : b ∈ keysOf (mapSet l a kb) := by
      rw [mapSet_keysOf, if_pos hamem]
      exact hbmem
    have hm2 : mapSet (mapSet l a kb) b ka =
        (mapSet l a kb).map (fun p => if p.1 = b then (b, ka) else p) :=
      hmm (mapSet l a kb) b ka hbmem1
    rw [hm2, hm1]
    have hmapeq : valsOf ((l.map (fun p => if p.1 = a then (a, kb) else p)).map
        (fun p => if p.1 = b then (b, ka) else p)) =
        (valsOf l).map (Equiv.swap ka kb) := by
      unfold valsOf
      rw [List.map_map, List.map_map, List.map_map]
      apply List.map_congr_left
      intro p hp
      have hpl : alookup p.1 l = some p.2 := mem_alookup hp hk
      simp only [Function.comp_apply]
      by_cases hpa : p.1 = a
      · have hpka : p.2 = ka := by
          rw [hpa, hA] at hpl
          exact (Option.some.inj hpl).symm
        rw [if_pos hpa]
        rw [if_neg (show ¬((a, kb) : String × String).1 = b from hab)]
        rw [hpka, Equiv.swap_apply_left]
      · by_cases hpb : p.1 = b
        · have hpkb : p.2 = kb := by
            rw [hpb, hB] at hpl
            exact (Option.some.inj hpl).symm
          rw [if_neg hpa, if_pos hpb]
          rw [hpkb, Equiv.swap_apply_right]
        · have hne_ka : p.2 ≠ ka := by
            intro hc
            have h2 : (a, ka) ∈ l := alookup_mem hA
            have h3 : p = (a, ka) :=
              List.inj_on_of_nodup_map hv hp h2 (by rw [hc])
            exact hpa (by rw [h3])
          have hne_kb : p.2 ≠ kb := by
            intro hc
            have h2 : (b, kb) ∈ l := alookup_mem hB
            have h3 : p = (b, kb) :=
              List.inj_on_of_nodup_map hv hp h2 (by rw [hc])
            exact hpb (by rw [h3])
          rw [if_neg hpa, if_neg hpb]
          rw [Equiv.swap_apply_of_ne_of_ne hne_ka hne_kb]
    rw [hmapeq]
    exact List.Nodup.map (Equiv.swap ka kb).injective hv

theorem swapJS_inv {l : Layout} (hinv : LayoutInv l)
    (oa ob : Option String) : LayoutInv (swapJS l oa ob) := by
  unfold swapJS
  split
  · split
    · rename_i a b x1 x2 ka kb hA hB
      split
      · exact mapSet_swap_inv hinv hA hB
      · exact hinv
    · exact hinv
  · exact hinv

theorem mutateTail_inv {layout : Layout}
    (hinv : LayoutInv layout) (actions : List GameAction)
    (keyToFinger : List (String × Finger)) (actionNames : List String)
    (rng : SeededRandom) :
    LayoutInv (mutateTail layout actions keyToFinger actionNames rng).1 := by
  unfold mutateTail
  dsimp only
  split
  · exact hinv
  · exact swapJS_inv hinv _ _

theorem mutate_inv {layout : Layout} (hinv : LayoutInv layout)
    (fingerLoads : List (Finger × ℚ)) (actions : List GameAction)
    (keyToFinger : List (String × Finger)) (rng : SeededRandom) :
    LayoutInv (mutate layout fingerLoads actions keyToFinger rng).1 := by
  unfold mutate
  dsimp only
  by_cases h1 : ((rng.next).1 < 7/10)
  · rw [if_pos h1]
    exact swapJS_inv hinv _ _
  · rw [if_neg h1]
    by_cases h2 : ((rng.next).1 < 9/10)
    · rw [if_pos h2]
      by_cases h3 : (stableSort (fun a b => decide (b.2 ≤ a.2))
          fingerLoads).length < 2
      · rw [if_pos h3]
        exact hinv
      · rw [if_neg h3]
        cases (stableSort (fun a b => decide (b.2 ≤ a.2))
            fingerLoads).head? with
        | none => exact hinv
        | some highEntry =>
          cases (stableSort (fun a b => decide (b.2 ≤ a.2))
              fingerLoads).getLast? with
          | none => exact hinv
          | some lowEntry =>
            dsimp only
            by_cases h4 : (keysOf layout).filter (fun a =>
                match alookup a layout with
                | some key => !(key = "") &&
                    decide (alookup key keyToFinger = some highEntry.1)
                | none => false) ≠ [] ∧
                (keysOf layout).filter (fun a =>
                match alookup a layout with
                | some key => !(key = "") &&
                    decide (alookup key keyToFinger = some lowEntry.1)
                | none => false) ≠ []
            · rw [if_pos h4]
              exact swapJS_inv hinv _ _
            · rw [if_neg h4]
              exact mutateTail_inv hinv _ _ _ _
    · rw [if_neg h2]
      exact mutateTail_inv hinv _ _ _ _

theorem saLoop_inv (accept : ℚ → ℚ → ℚ → Bool) (actions : List GameAction)
    (ctx : FrictionContext) (penalties : PenaltyConfig)
    (minTemp coolingRate : ℚ) :
    ∀ (fuel : ℕ) (temp : ℚ) (current : Layout) (currentScore : ℚ)
      (best : Layout) (bestScore : ℚ) (rng : SeededRandom),
      LayoutInv current → LayoutInv best →
      LayoutInv (saLoop accept actions ctx penalties minTemp coolingRate fuel
        temp current currentScore best bestScore rng) := by
  intro fuel
  induction fuel with
  | zero => intro _ _ _ _ _ _ hc hb; exact hb
  | succ n ih =>
    intro temp current currentScore best bestScore rng hc hb
    rw [saLoop]
    by_cases ht : temp > minTemp
    · rw [if_pos ht]
      dsimp only
      have hn : LayoutInv (mutate current
          (calculateFingerLoads current ctx) actions ctx.keyToFinger rng).1 :=
        mutate_inv hc _ _ _ _
      by_cases hacc : (if calculateFriction (mutate current
          (calculateFingerLoads current ctx) actions ctx.keyToFinger rng).1
          ctx penalties - currentScore < 0 then true
        else accept (((mutate current (calculateFingerLoads current ctx)
          actions ctx.keyToFinger rng).2.next).1)
          (calculateFriction (mutate current (calculateFingerLoads current
            ctx) actions ctx.keyToFinger rng).1 ctx penalties - currentScore)
          temp) = true
      · rw [if_pos hacc]
        apply ih
        · exact hn
        · by_cases hbet : calculateFriction (mutate current
              (calculateFingerLoads current ctx) actions ctx.keyToFinger
              rng).1 ctx penalties < bestScore
          · rw [if_pos hbet]; exact hn
          · rw [if_neg hbet]; exact hb
      · rw [if_neg hacc]
        exact ih _ _ _ _ _ _ hc hb
    · rw [if_neg ht]
      exact hb

/-- The `generateInitialLayout` construction invariant: well-formed layout
whose values are all recorded in `usedKeys`. -/
def GLInv (st : GLState) : Prop :=
  LayoutInv st.layout ∧ ∀ v ∈ valsOf st.layout, v ∈ st.usedKeys

theorem assignExclusiveKeys_inv (nonMovement : List GameAction) :
    ∀ (keys : List String) (st : GLState), GLInv st →
      GLInv (assignExclusiveKeys nonMovement st keys) := by
  intro keys
  induction keys with
  | nil => intro st h; exact h
  | cons key rest ih =>
    intro st h
    simp only [assignExclusiveKeys]
    by_cases hk : key ∈ st.usedKeys
    · rw [if_pos hk]; exact ih st h
    · rw [if_neg hk]
      cases nonMovement.find? (fun a => decide (a.name ∉ st.usedActions)) with
      | none => exact h
      | some action =>
        apply ih
        dsimp only
        refine ⟨⟨mapSet_keys_nodup h.1.1, ?_⟩, ?_⟩
        · exact mapSet_vals_nodup h.1.1 h.1.2 (fun hc => hk (h.2 key hc))
        · intro v hv
          rcases mapSet_vals_cases hv with rfl | hv2
          · exact List.mem_cons_self _ _
          · exact List.mem_cons_of_mem _ (h.2 v hv2)

theorem assignExclusiveFingers_inv (nonMovement : List GameAction) :
    ∀ (configs : List (Finger × FingerConfig)) (st : GLState), GLInv st →
      GLInv (assignExclusiveFingers nonMovement st configs) := by
  intro configs
  induction configs with
  | nil => intro st h; exact h
  | cons p rest ih =>
    intro st h
    simp only [assignExclusiveFingers]
    by_cases he : p.2.exclusiveKeys = []
    · rw [if_pos he]; exact ih st h
    · rw [if_neg he]
      exact ih _ (assignExclusiveKeys_inv nonMovement p.2.exclusiveKeys st h)

theorem assignRemaining_inv (scoredKeys : List ScoredKey) :
    ∀ (actions : List GameAction) (st : GLState), GLInv st →
      GLInv (assignRemaining scoredKeys st actions) := by
  intro actions
  induction actions with
  | nil => intro st h; exact h
  | cons action rest ih =>
    intro st h
    simp only [assignRemaining]
    cases hf : scoredKeys.find? (fun sk => decide (sk.code ∉ st.usedKeys)) with
    | none => exact ih st h
    | some sk =>
      apply ih
      dsimp only
      have hp := List.find?_some hf
      have hfresh : sk.code ∉ st.usedKeys := of_decide_eq_true hp
      refine ⟨⟨mapSet_keys_nodup h.1.1, ?_⟩, ?_⟩
      · exact mapSet_vals_nodup h.1.1 h.1.2 (fun hc => hfresh (h.2 sk.code hc))
      · intro v hv
        rcases mapSet_vals_cases hv with rfl | hv2
        · exact List.mem_cons_self _ _
        · exact List.mem_cons_of_mem _ (h.2 v hv2)

theorem foldl_movement_inv :
    ∀ (l : List (String × String)) (st : GLState), GLInv st →
      (valsOf l).Nodup → (∀ p ∈ l, p.2 ∉ st.usedKeys) →
      GLInv (l.foldl
        (fun st p =>
          { layout := mapSet st.layout p.1 p.2
            usedKeys := p.2 :: st.usedKeys
            usedActions := p.1 :: st.usedActions }) st) := by
  intro l
  induction l with
  | nil => intro st h _ _; exact h
  | cons p rest ih =>
    intro st h hv hfresh
    rw [valsOf, List.map_cons, List.nodup_cons] at hv
    rw [List.foldl_cons]
    apply ih
    · dsimp only
      refine ⟨⟨mapSet_keys_nodup h.1.1, ?_⟩, ?_⟩
      · exact mapSet_vals_nodup h.1.1 h.1.2
          (fun hc => hfresh p (List.mem_cons_self _ _) (h.2 p.2 hc))
      · intro v hvm
        rcases mapSet_vals_cases hvm with rfl | hv2
        · exact List.mem_cons_self _ _
        · exact List.mem_cons_of_mem _ (h.2 v hv2)
    · exact hv.2
    · intro q hq hc
      rcases List.mem_cons.1 hc with h2 | h2
      · exact hv.1 (h2 ▸ List.mem_map_of_mem Prod.snd hq)
      · exact hfresh q (List.mem_cons_of_mem _ hq) h2

theorem generateInitialLayout_inv (actions : List GameAction)
    (scoredKeys : List ScoredKey) (movementConfig : MovementConfig)
    (fingerConfig : FingerConfigMap)
    (Hm : (valsOf (buildMovementActionMap actions movementConfig)).Nodup) :
    LayoutInv (generateInitialLayout actions scoredKeys movementConfig
      fingerConfig) := by
  unfold generateInitialLayout
  apply (assignRemaining_inv _ _ _ _).1
  apply assignExclusiveFingers_inv
  apply foldl_movement_inv _ _
    ⟨⟨by simp [keysOf], by simp [valsOf]⟩,
     by intro v hv; simp [valsOf] at hv⟩ Hm
  intro p _ hc
  simp at hc

/-- Movement configuration used in the C4 instances: WASD, no exclusive
fingers. -/
def c4MC : MovementConfig :=
  ⟨⟨"KeyW", "KeyS", [], false⟩, ⟨"KeyA", "KeyD", [], false⟩⟩

/-- **C4** (corrected).  The spec claims every layout returned by
`optimizeSA` is injective (no key is the value of two distinct actions).
That fails when two DIRECTIONAL action names contain the same movement
substring, because `buildMovementActionMap` then maps both actions to the
same axis key (see the counterexample).  Amended statement: PROVIDED the
movement-action map assigns pairwise-distinct keys to the movement actions,
every layout returned by `optimizeSA` has pairwise-distinct action names
and pairwise-distinct key values, i.e. it is injective and the number of
actions equals the number of distinct keys used. -/
theorem c4_optimizeSA_injective (accept : ℚ → ℚ → ℚ → Bool) (fuel : ℕ)
    (actions : List GameAction) (scoredKeys : List ScoredKey)
    (fingerConfig : FingerConfigMap) (movementConfig : MovementConfig)
    (penalties : PenaltyConfig) (options : SAOptions) (now : ℤ)
    (Hm : (valsOf (buildMovementActionMap actions movementConfig)).Nodup) :
    (keysOf (optimizeSA accept fuel actions scoredKeys fingerConfig
      movementConfig penalties options now)).Nodup ∧
    (valsOf (optimizeSA accept fuel actions scoredKeys fingerConfig
      movementConfig penalties options now)).Nodup := by
  have hg := generateInitialLayout_inv actions scoredKeys movementConfig
    fingerConfig Hm
  show LayoutInv (optimizeSA accept fuel actions scoredKeys fingerConfig
    movementConfig penalties options now)
  unfold optimizeSA
  exact saLoop_inv accept actions _ penalties _ _ fuel _ _ _ _ _ _ hg hg

/-- **C4 counterexample.**  The DIRECTIONAL actions `forward` and
`moveforward` both contain the substring `forward`, so
`buildMovementActionMap` maps both to the vertical positive key `KeyW`;
the initial layout binds both actions to `KeyW` and a fuel-0 SA run
returns it, so the returned layout is not injective. -/
theorem c4_counterexample :
    ¬ (valsOf (optimizeSA (fun _ _ _ => true) 0
        [⟨"forward", 90, ActionType.DIRECTIONAL, 10, []⟩,
         ⟨"moveforward", 80, ActionType.DIRECTIONAL, 9, []⟩]
        [] [] c4MC DEFAULT_PENALTIES DEFAULT_SA_OPTIONS 0)).Nodup := by
  decide

/-- **C4 witness**: the amended theorem applied at a concrete input — a
single DIRECTIONAL action, so the movement map trivially has distinct
values, and the fuel-0 run returns an injective layout. -/
theorem c4_witness :
    (valsOf (buildMovementActionMap
      [⟨"forward", 90, ActionType.DIRECTIONAL, 10, []⟩] c4MC)).Nodup ∧
    ((keysOf (optimizeSA (fun _ _ _ => true) 0
        [⟨"forward", 90, ActionType.DIRECTIONAL, 10, []⟩]
        [] [] c4MC DEFAULT_PENALTIES DEFAULT_SA_OPTIONS 0)).Nodup ∧
     (valsOf (optimizeSA (fun _ _ _ => true) 0
        [⟨"forward", 90, ActionType.DIRECTIONAL, 10, []⟩]
        [] [] c4MC DEFAULT_PENALTIES DEFAULT_SA_OPTIONS 0)).Nodup) :=
  ⟨by decide,
   c4_optimizeSA_injective (fun _ _ _ => true) 0
     [⟨"forward", 90, ActionType.DIRECTIONAL, 10, []⟩]
     [] [] c4MC DEFAULT_PENALTIES DEFAULT_SA_OPTIONS 0 (by decide)⟩
